import Mathlib

/-!
# pos-stress-test: a verification development for `main.go`

The program is a command-line load generator.  `parseFlags` validates the
command line into a `config`; `runLoadTest` starts `cfg.concurrency` worker
goroutines that drain a buffered channel of `cfg.requests` work units, each
worker issuing one HTTP GET per unit and recording its outcome in shared
counters; the counters are returned as a `report`.

Machine integers are modelled as `Int`.  The counters of the report are Go
`int32` values updated with `atomic.AddInt32` and `++`, both of which wrap
around; this is made explicit with `wrap32`.  The counter of a
`sync.WaitGroup` is an `int32` as well: `Add(delta)` adds the low 32 bits of
`delta` and panics when the counter becomes negative.  Go `int` is taken to be
64 bits wide (`isGoInt`), as on every 64-bit platform.

`runLoadTest` is embedded as an interleaving semantics: a state made of the
program point of the main goroutine, the program point of every worker, the
channel, the wait group, the mutex and the shared counters, and a computable
`step` function that executes one atomic action of one goroutine.  A schedule
is the list of goroutines that move, in order.  The atomic actions are the
channel operations, the wait-group operations, each `atomic.AddInt32`, the
start and the return of `client.Get`, `statusMu.Lock()`, the map update made
under the mutex, and `statusMu.Unlock()`.  The only assumption on the machine
is that it cannot hold `2^32` goroutines (`maxGoroutines`).

Main results: every execution is finite (`runLoadTest_terminates`); when
`0 <= concurrency <= 2147483647` the program never panics (`exec_no_panic`),
no reachable state is a deadlock (`progress`) and every partial execution
extends to one in which `runLoadTest` returns (`runLoadTest_completes`); the
report returned depends only on how many calls ended in each outcome
(`runLoadTest_report`).  The counts are exact up to 2147483647 requests
(`runLoadTest_exact`) and wrap around from 2147483648 requests on.  With a
concurrency of 2147483648 or more no report is returned
(`runLoadTest_concurrency`).
-/

namespace StressTest

/-! ## Machine integers -/

/-- Two's complement wrap-around of a 32-bit signed integer (Go `int32`). -/
def wrap32 (x : Int) : Int := (x + 2147483648) % 4294967296 - 2147483648

/-- Range of a Go `int` on a 64-bit platform. -/
def isGoInt (x : Int) : Prop := -9223372036854775808 ≤ x ∧ x ≤ 9223372036854775807

instance (x : Int) : Decidable (isGoInt x) := by unfold isGoInt; infer_instance

/-! ## Data model (`main.go`, lines 26-39) -/

/-- The `config` struct.  `timeout` is a `time.Duration`, a signed count of
nanoseconds. -/
structure config where
  url : String
  requests : Int
  concurrency : Int
  timeout : Int
  deriving DecidableEq, Repr

/-- The `report` struct.  `statusCounters` is a Go `map[int]int32`, kept as an
association list with pairwise distinct keys; it is read with `mapGet`. -/
structure report where
  duration : Int
  totalRequests : Int
  success200 : Int
  statusCounters : List (Int × Int)
  errors : Int
  deriving DecidableEq, Repr

/-! ## `parseFlags` (lines 41-71)

The function is embedded from the point where `flag.Parse()` has produced the
four flag values. -/

/-- Validation and clamping done by `parseFlags` on the parsed flag values. -/
def parseFlags (url : String) (requests concurrency timeout : Int) : Except String config :=
  if url = "" then
    .error "o parâmetro --url é obrigatório"
  else if requests ≤ 0 then
    .error "o parâmetro --requests deve ser maior que zero"
  else if concurrency ≤ 0 then
    .error "o parâmetro --concurrency deve ser maior que zero"
  else
    let concurrency := if concurrency > requests then requests else concurrency
    .ok { url := url, requests := requests, concurrency := concurrency, timeout := timeout }

/-- A configuration as `runLoadTest` expects it from `parseFlags`. -/
def config.valid (cfg : config) : Prop :=
  cfg.url ≠ "" ∧ 0 < cfg.requests ∧ 0 < cfg.concurrency ∧ cfg.concurrency ≤ cfg.requests

instance (cfg : config) : Decidable cfg.valid := by unfold config.valid; infer_instance

/-! ## The HTTP collaborator and `performRequest` (lines 131-139) -/

/-- Result of `client.Get(url)`: a transport error (connection refused, timeout,
DNS failure, ...) or a response carrying a status code. -/
inductive Outcome where
  | err
  | status (code : Int)
  deriving DecidableEq, Repr

/-- The constant `http.StatusOK`. -/
def StatusOK : Int := 200

/-- The function `performRequest`: `(0, err)` when `client.Get` fails, otherwise
`(resp.StatusCode, nil)`.  The second component is `err != nil`. -/
def performRequest (get : Outcome) : Int × Bool :=
  match get with
  | .err => (0, true)
  | .status code => (code, false)

/-- Environment of one run of `runLoadTest`: `get k` is what the `k`-th call of
`client.Get` returns (calls numbered from 0 in the order they are issued), and
`now t` is the reading of the wall clock after `t` scheduler steps.  The
client is built with `Timeout: cfg.timeout` (line 74); a request that exceeds
it is one of the calls that return `Outcome.err`. -/
structure Env where
  get : Nat → Outcome
  now : Nat → Int

/-! ## The map `statusCounters` -/

/-- Map read `m[k]` with presence: `none` when the key is absent. -/
def mapGet : List (Int × Int) → Int → Option Int
  | [], _ => none
  | (k', v) :: t, k => if k' = k then some v else mapGet t k

/-- The statement `m[k]++` on a `map[int]int32`: a missing key reads as `0`, the
increment wraps around as `int32` arithmetic does. -/
def mapIncr : List (Int × Int) → Int → List (Int × Int)
  | [], k => [(k, wrap32 (0 + 1))]
  | (k', v) :: t, k => if k' = k then (k', wrap32 (v + 1)) :: t else (k', v) :: mapIncr t k

/-- Sum of all values of a map, as a mathematical integer. -/
def mapSum (m : List (Int × Int)) : Int := (m.map (fun e => e.2)).sum

/-- Keys of a map. -/
def mapKeys (m : List (Int × Int)) : List Int := m.map (fun e => e.1)

/-! ## `runLoadTest` (lines 73-129) as an interleaving semantics -/

/-- Program points of a worker goroutine (the closure `worker`, lines 86-104).
Each constructor names the next atomic action of the goroutine. -/
inductive WorkerPc where
  /-- line 88, `for range jobs`: receive a unit, or leave the loop when the
  channel is closed and empty (then the deferred `wg.Done()` runs) -/
  | recv
  /-- line 89, `atomic.AddInt32(&totalRequests, 1)` -/
  | count
  /-- line 90, about to call `performRequest` -/
  | call
  /-- line 90, inside `performRequest`: the `k`-th `client.Get` is in flight -/
  | request (k : Nat)
  /-- line 91, `performRequest` has returned `(status, err)` -/
  | got (status : Int) (err : Bool)
  /-- line 100, `statusMu.Lock()` -/
  | lock (status : Int)
  /-- line 101, `statusCounters[status]++`, holding the mutex -/
  | incr (status : Int)
  /-- line 102, `statusMu.Unlock()` -/
  | unlock
  /-- the goroutine has returned -/
  | exited
  deriving DecidableEq, Repr

/-- Program points of the goroutine that runs `runLoadTest`. -/
inductive MainPc where
  /-- line 84, `make(chan struct{}, cfg.requests)` -/
  | make
  /-- lines 106-108, `start := time.Now()` and `wg.Add(cfg.concurrency)` -/
  | add
  /-- lines 109-111, the loop that starts the workers, with its variable `i` -/
  | spawn (i : Int)
  /-- lines 113-115, the loop that enqueues the work units, with its variable `i` -/
  | send (i : Int)
  /-- line 116, `close(jobs)` -/
  | close
  /-- line 118, `wg.Wait()`, followed by lines 120-128 -/
  | wait
  /-- `runLoadTest` has returned its report -/
  | done
  /-- a run-time panic or a fatal error of the runtime ended the program -/
  | panicked
  deriving DecidableEq, Repr

/-- Shared state of a run. -/
structure State where
  main : MainPc
  workers : List WorkerPc
  /-- number of units buffered in the channel `jobs` -/
  jobs : Nat
  closed : Bool
  /-- counter of the wait group `wg` -/
  wg : Int
  /-- whether the mutex `statusMu` is held -/
  statusMu : Bool
  totalRequests : Int
  success200 : Int
  errorsCount : Int
  statusCounters : List (Int × Int)
  /-- number of `client.Get` calls issued so far -/
  calls : Nat
  start : Int
  duration : Int
  /-- number of scheduler steps executed so far -/
  tick : Nat
  deriving DecidableEq, Repr

/-- State at entry of `runLoadTest`: counters zero, map empty (lines 76-83). -/
def State.init : State :=
  { main := .make, workers := [], jobs := 0, closed := false, wg := 0, statusMu := false,
    totalRequests := 0, success200 := 0, errorsCount := 0, statusCounters := [],
    calls := 0, start := 0, duration := 0, tick := 0 }

/-- The value returned at lines 122-128. -/
def State.report (s : State) : report :=
  { duration := s.duration, totalRequests := s.totalRequests, success200 := s.success200,
    statusCounters := s.statusCounters, errors := s.errorsCount }

/-- The largest pool of goroutines the machine can hold.  A goroutine starts
with a stack of 2 KiB, so `2^32` goroutines need more than 8 TiB of memory; the
`go` statement that would bring the pool to `2^32` workers ends the program
with `fatal error: out of memory`. -/
def maxGoroutines : Nat := 4294967295

/-- One atomic action of the main goroutine; `none` when it is blocked or has
finished.  `make` panics on a negative capacity.  `wg.Add(delta)` adds the low
32 bits of `delta` to the `int32` counter of the wait group
(`state.Add(uint64(delta) << 32)`, `v := int32(state >> 32)`) and panics when
the counter is negative afterwards.  A `go` statement fails when the machine
cannot hold one more goroutine.  A send blocks while the buffer holds
`cfg.requests` units; `wg.Wait` blocks until the counter is zero. -/
def stepMain (env : Env) (cfg : config) (s : State) : Option State :=
  match s.main with
  | .make =>
    if cfg.requests < 0 then some { s with main := .panicked }
    else some { s with main := .add }
  | .add =>
    if wrap32 (s.wg + cfg.concurrency) < 0 then some { s with main := .panicked }
    else
      some { s with start := env.now s.tick, wg := wrap32 (s.wg + cfg.concurrency),
                    main := .spawn 0 }
  | .spawn i =>
    if i < cfg.concurrency then
      if s.workers.length < maxGoroutines then
        some { s with workers := s.workers ++ [WorkerPc.recv], main := .spawn (i + 1) }
      else some { s with main := .panicked }
    else some { s with main := .send 0 }
  | .send i =>
    if i < cfg.requests then
      if (s.jobs : Int) < cfg.requests then some { s with jobs := s.jobs + 1, main := .send (i + 1) }
      else none
    else some { s with main := .close }
  | .close => some { s with closed := true, main := .wait }
  | .wait =>
    if s.wg = 0 then some { s with duration := env.now s.tick - s.start, main := .done }
    else none
  | .done => none
  | .panicked => none

/-- One atomic action of worker `i` (the body of the closure `worker`); `none`
when the worker does not exist, is blocked or has returned.  The deferred
`wg.Done()` is `wg.Add(-1)` on the `int32` counter and panics when the counter
becomes negative. -/
def worker (env : Env) (s : State) (i : Nat) : Option State :=
  match s.workers.get? i with
  | none => none
  | some pc =>
    match pc with
    | .recv =>
      if 0 < s.jobs then
        some { s with jobs := s.jobs - 1, workers := s.workers.set i .count }
      else if s.closed then
        if wrap32 (s.wg - 1) < 0 then some { s with main := .panicked }
        else some { s with wg := wrap32 (s.wg - 1), workers := s.workers.set i .exited }
      else none
    | .count =>
      some { s with totalRequests := wrap32 (s.totalRequests + 1),
                    workers := s.workers.set i .call }
    | .call =>
      some { s with calls := s.calls + 1, workers := s.workers.set i (.request s.calls) }
    | .request k =>
      let (status, err) := performRequest (env.get k)
      some { s with workers := s.workers.set i (.got status err) }
    | .got status err =>
      if err then
        some { s with errorsCount := wrap32 (s.errorsCount + 1),
                      workers := s.workers.set i .recv }
      else if status = StatusOK then
        some { s with success200 := wrap32 (s.success200 + 1),
                      workers := s.workers.set i (.lock status) }
      else some { s with workers := s.workers.set i (.lock status) }
    | .lock status =>
      if s.statusMu then none
      else some { s with statusMu := true, workers := s.workers.set i (.incr status) }
    | .incr status =>
      some { s with statusCounters := mapIncr s.statusCounters status,
                    workers := s.workers.set i .unlock }
    | .unlock => some { s with statusMu := false, workers := s.workers.set i .recv }
    | .exited => none

/-- A scheduling decision: which goroutine performs its next atomic action. -/
inductive Action where
  | main
  | worker (i : Nat)
  deriving DecidableEq, Repr

/-- One step of the program under a scheduling decision. -/
def step (env : Env) (cfg : config) (s : State) (a : Action) : Option State :=
  match s.main with
  | .panicked => none
  | _ =>
    match a with
    | .main => (stepMain env cfg s).map (fun s' => { s' with tick := s.tick + 1 })
    | .worker i => (worker env s i).map (fun s' => { s' with tick := s.tick + 1 })

/-- Execution of a schedule; `none` when the schedule asks a goroutine to move
that cannot. -/
def exec (env : Env) (cfg : config) : State → List Action → Option State
  | s, [] => some s
  | s, a :: rest =>
    match step env cfg s a with
    | none => none
    | some s' => exec env cfg s' rest

/-- A run of `runLoadTest` under a schedule: the report, when the schedule
drives the main goroutine to its `return`. -/
def runLoadTest (env : Env) (cfg : config) (sched : List Action) : Option report :=
  match exec env cfg State.init sched with
  | none => none
  | some s => if s.main = .done then some s.report else none

/-- Schedule that lets the main goroutine perform `n` actions. -/
def mainSteps (n : Nat) : List Action := List.replicate n Action.main

/-- Schedule that lets worker `i` perform `n` actions. -/
def workerSteps (i n : Nat) : List Action := List.replicate n (Action.worker i)

/-! ## Counting the outcomes of a run -/

/-- Number of calls among the first `n` that end in a transport error. -/
def countErrs (get : Nat → Outcome) : Nat → Nat
  | 0 => 0
  | n + 1 => countErrs get n + (if get n = Outcome.err then 1 else 0)

/-- Number of calls among the first `n` that return status `c`. -/
def countStatus (get : Nat → Outcome) (c : Int) : Nat → Nat
  | 0 => 0
  | n + 1 => countStatus get c n + (if get n = Outcome.status c then 1 else 0)

/-- Content of a map entry after `n` increments: no key before the first one,
afterwards the `int32` value of `n`. -/
def mapVal (n : Nat) : Option Int := if n = 0 then none else some (wrap32 n)

/-! ## Bookkeeping over the worker pool -/

/-- The quantities that are counted over the worker pool. -/
inductive Tally where
  /-- holds a unit taken from the channel, not yet counted in `totalRequests` -/
  | claimed
  /-- counted in `totalRequests`, request not yet issued -/
  | counted
  /-- a `client.Get` call is in flight -/
  | inFlight
  /-- a transport error that is not yet recorded in `errorsCount` -/
  | pendErr
  /-- a response with status `c` that is not yet recorded in `statusCounters` -/
  | pendHist (c : Int)
  /-- a response with status 200 that is not yet recorded in `success200` -/
  | pendSucc
  /-- holds the mutex `statusMu` -/
  | holds
  /-- has returned -/
  | exited

/-- Contribution (0 or 1) of one worker to a tally. -/
def weight (env : Env) : Tally → WorkerPc → Nat
  | .claimed, .count => 1
  | .counted, .call => 1
  | .inFlight, .request _ => 1
  | .pendErr, .request k => if env.get k = Outcome.err then 1 else 0
  | .pendErr, .got _ true => 1
  | .pendHist c, .request k => if env.get k = Outcome.status c then 1 else 0
  | .pendHist c, .got status false => if status = c then 1 else 0
  | .pendHist c, .lock status => if status = c then 1 else 0
  | .pendHist c, .incr status => if status = c then 1 else 0
  | .pendSucc, .request k => if env.get k = Outcome.status StatusOK then 1 else 0
  | .pendSucc, .got status false => if status = StatusOK then 1 else 0
  | .holds, .incr _ => 1
  | .holds, .unlock => 1
  | .exited, .exited => 1
  | _, _ => 0

/-- A tally summed over the pool. -/
def wsum (env : Env) (q : Tally) (ws : List WorkerPc) : Nat := (ws.map (weight env q)).sum

/-- Number of requests in flight: workers inside `client.Get`. -/
def State.inFlight (s : State) : Nat :=
  (s.workers.filter (fun pc => match pc with | .request _ => true | _ => false)).length

/-- Units sent to the channel so far, read off the main program point. -/
def sent (cfg : config) : MainPc → Int
  | .send i => i
  | .close => cfg.requests
  | .wait => cfg.requests
  | .done => cfg.requests
  | _ => 0

/-- Number of workers the start loop starts: `cfg.concurrency`, or none when
that is negative. -/
def poolSize (cfg : config) : Int := max cfg.concurrency 0

/-- Workers started so far, read off the main program point. -/
def started (cfg : config) : MainPc → Int
  | .make => 0
  | .add => 0
  | .spawn i => i
  | _ => poolSize cfg

/-- Whether `wg.Add` has run. -/
def added : MainPc → Bool
  | .make => false
  | .add => false
  | _ => true

/-- Whether `close(jobs)` has run. -/
def afterClose : MainPc → Bool
  | .wait => true
  | .done => true
  | _ => false

/-- Invariant, control part: what the main program point says about the
configuration, the size of the pool and the channel being closed. -/
structure Ctrl (cfg : config) (main : MainPc) (len : Nat) (closed : Bool) : Prop where
  hN : main ≠ .make → 0 ≤ cfg.requests
  hW : added main = true → 0 ≤ wrap32 cfg.concurrency
  hlen : (len : Int) = started cfg main
  hstarted : added main = true → 0 ≤ started cfg main ∧ started cfg main ≤ poolSize cfg
  hlim : len ≤ maxGoroutines
  hsent : 0 ≤ sent cfg main ∧ (main ≠ .make → sent cfg main ≤ cfg.requests)
  hclosed : closed = afterClose main

/-- Invariant, flow part: the wait group counts the workers that have not
returned, every unit sent is buffered, held by a worker or has led to a call,
a worker returns only from a closed, drained channel, and `wg.Wait()` returns
only on a zero counter. -/
structure Flow (env : Env) (cfg : config) (main : MainPc) (ws : List WorkerPc) (jobs : Nat)
    (wg : Int) (closed : Bool) (calls : Nat) : Prop where
  hwg : wg + (wsum env .exited ws : Int) = if added main then wrap32 cfg.concurrency else 0
  hwg0 : 0 ≤ wg
  hflow : (jobs : Int) + wsum env .claimed ws + wsum env .counted ws + calls = sent cfg main
  hexit : 0 < wsum env .exited ws → closed = true ∧ jobs = 0
  hdone : main = .done → wg = 0

/-- Invariant, data part: every shared counter is the `int32` value of the
number of outcomes recorded in it, and the outcomes recorded plus those still
pending in the pool are the outcomes of the calls issued so far. -/
structure Data (env : Env) (ws : List WorkerPc) (calls : Nat) (total succ errs : Int)
    (hist : List (Int × Int)) (mu : Bool) : Prop where
  htotal : total = wrap32 ((wsum env .counted ws + calls : Nat) : Int)
  herr : ∃ e : Nat, errs = wrap32 e ∧ e + wsum env .pendErr ws = countErrs env.get calls
  hsucc : ∃ n : Nat, succ = wrap32 n ∧
            n + wsum env .pendSucc ws = countStatus env.get StatusOK calls
  hhist : ∀ c : Int, ∃ n : Nat, mapGet hist c = mapVal n ∧
            n + wsum env (.pendHist c) ws = countStatus env.get c calls
  hmu : wsum env .holds ws = if mu then 1 else 0
  hkeys : (mapKeys hist).Nodup

/-- The invariant of a run that has not panicked. -/
structure Core (env : Env) (cfg : config) (s : State) : Prop where
  ctrl : Ctrl cfg s.main s.workers.length s.closed
  flow : Flow env cfg s.main s.workers s.jobs s.wg s.closed s.calls
  data : Data env s.workers s.calls s.totalRequests s.success200 s.errorsCount
    s.statusCounters s.statusMu

/-- The invariant of a run: a run that has panicked keeps a pool of at most
`poolSize cfg` workers. -/
def Inv (env : Env) (cfg : config) (s : State) : Prop :=
  (s.main = .panicked ∧ (s.workers.length : Int) ≤ poolSize cfg) ∨ Core env cfg s

/-- States reachable from the entry of `runLoadTest`. -/
def Reachable (env : Env) (cfg : config) (s : State) : Prop :=
  ∃ sched, exec env cfg State.init sched = some s

/-! ## Termination measure -/

/-- Rank of a worker program point: the number of actions left before the
worker is back at `recv`, plus one. -/
def workerRank : WorkerPc → Nat
  | .exited => 0
  | .recv => 1
  | .unlock => 2
  | .incr _ => 3
  | .lock _ => 4
  | .got _ _ => 5
  | .request _ => 6
  | .call => 7
  | .count => 8

/-- Rank of the main program point. -/
def mainRank (cfg : config) : MainPc → Nat
  | .panicked => 0
  | .done => 1
  | .wait => 2
  | .close => 3
  | .send i => 4 + 10 * (cfg.requests - i).toNat
  | .spawn i => 5 + 10 * cfg.requests.toNat + 2 * (cfg.concurrency - i).toNat
  | .add => 6 + 10 * cfg.requests.toNat + 2 * cfg.concurrency.toNat
  | .make => 7 + 10 * cfg.requests.toNat + 2 * cfg.concurrency.toNat

/-- A bound on the number of actions a run can still perform. -/
def fuel (cfg : config) (s : State) : Nat :=
  mainRank cfg s.main + (s.workers.map workerRank).sum + 9 * s.jobs

/-! ## Concrete configurations, collaborators and schedules -/

/-- The command line `--url=http://localhost --requests=2147483648
--concurrency=1` (default timeout of 30 s), as `parseFlags` returns it. -/
def cfgWrap : config :=
  { url := "http://localhost", requests := 2147483648, concurrency := 1,
    timeout := 30000000000 }

/-- Two requests, two workers. -/
def cfgPair : config :=
  { url := "http://localhost", requests := 2, concurrency := 2, timeout := 30000000000 }

/-- Ten requests, three workers. -/
def cfgTen : config :=
  { url := "http://localhost", requests := 10, concurrency := 3, timeout := 30000000000 }

/-- Five requests, two workers. -/
def cfgFive : config :=
  { url := "http://localhost", requests := 5, concurrency := 2, timeout := 30000000000 }

/-- Four requests, one worker. -/
def cfgFour : config :=
  { url := "http://localhost", requests := 4, concurrency := 1, timeout := 30000000000 }

/-- A target that always answers 200. -/
def envAll200 : Env := { get := fun _ => .status 200, now := fun t => t }

/-- A target that is never reachable. -/
def envAllErr : Env := { get := fun _ => .err, now := fun t => t }

/-- A target whose first call fails and that answers 200 afterwards. -/
def envFirstErr : Env :=
  { get := fun k => if k = 0 then .err else .status 200, now := fun t => t }

/-- A target that answers 200 to the first, third, ... call and 500 to the
second, fourth, ... call. -/
def envAlternate : Env :=
  { get := fun k => if k % 2 = 0 then .status 200 else .status 500, now := fun t => t }

/-- A target that answers 200 to the first call and 404 to all later ones. -/
def env200Then404 : Env :=
  { get := fun k => if k = 0 then .status 200 else .status 404, now := fun t => t }

/-- A target that answers 404 to the first call and 200 to all later ones. -/
def env404Then200 : Env :=
  { get := fun k => if k = 0 then .status 404 else .status 200, now := fun t => t }

/-- A schedule of `cfgPair`: worker 0 handles the first unit, then worker 1 the
second. -/
def schedPairA : List Action :=
  mainSteps 9 ++ workerSteps 0 8 ++ workerSteps 1 8 ++ workerSteps 0 1 ++ workerSteps 1 1 ++
    mainSteps 1

/-- A schedule of `cfgPair` in which both requests are in flight together and
worker 1, which issued the second call, records its outcome first. -/
def schedPairB : List Action :=
  mainSteps 9 ++ workerSteps 0 3 ++ workerSteps 1 3 ++ workerSteps 1 5 ++ workerSteps 0 5 ++
    workerSteps 1 1 ++ workerSteps 0 1 ++ mainSteps 1

/-- A partial schedule of `cfgPair` after which both workers are inside
`client.Get`. -/
def schedPairInFlight : List Action := mainSteps 9 ++ workerSteps 0 3 ++ workerSteps 1 3

/-- The state of `cfgPair` after `schedPairInFlight`: the main goroutine waits
in `wg.Wait()` and both workers are inside `client.Get`. -/
def statePairInFlight : State :=
  { main := .wait, workers := [.request 0, .request 1], jobs := 0, closed := true, wg := 2,
    statusMu := false, totalRequests := 2, success200 := 0, errorsCount := 0,
    statusCounters := [], calls := 2, start := 1, duration := 0, tick := 15 }

/-- The command line `--url=http://localhost --requests=2147483648
--concurrency=2147483648`, as `parseFlags` returns it. -/
def cfgBig : config :=
  { url := "http://localhost", requests := 2147483648, concurrency := 2147483648,
    timeout := 30000000000 }

/-- The state of `cfgBig` after `make` and `wg.Add(2147483648)`: the program has
panicked and no worker has been started. -/
def stateBigPanicked : State :=
  { main := .panicked, workers := [], jobs := 0, closed := false, wg := 0, statusMu := false,
    totalRequests := 0, success200 := 0, errorsCount := 0, statusCounters := [],
    calls := 0, start := 0, duration := 0, tick := 2 }

/-- One request, one worker. -/
def cfgOne : config :=
  { url := "http://localhost", requests := 1, concurrency := 1, timeout := 30000000000 }

/-- The schedule of `cfgTen` in which worker 0 handles all ten units. -/
def schedTen : List Action :=
  mainSteps 18 ++ workerSteps 0 81 ++ workerSteps 1 1 ++ workerSteps 2 1 ++ mainSteps 1

/-- The schedule of `cfgFive` in which worker 1 handles all five units, each of
which fails. -/
def schedFive : List Action :=
  mainSteps 12 ++ workerSteps 1 26 ++ workerSteps 0 1 ++ mainSteps 1

/-- The sequential schedule of `cfgFour`. -/
def schedFour : List Action := mainSteps 10 ++ workerSteps 0 33 ++ mainSteps 1

/-- The sequential schedule of `cfgOne`. -/
def schedOne : List Action := mainSteps 7 ++ workerSteps 0 9 ++ mainSteps 1

/-! # Theorems -/

/-! ## Machine arithmetic -/

theorem wrap32_wrap32_succ (x : Int) : wrap32 (wrap32 x + 1) = wrap32 (x + 1) := by
  unfold wrap32; omega

theorem wrap32_of_int32 (x : Int) (h1 : -2147483648 ≤ x) (h2 : x ≤ 2147483647) :
    wrap32 x = x := by
  unfold wrap32; omega

theorem wrap32_zero : wrap32 0 = 0 := by decide

theorem wrap32_le (x : Int) : wrap32 x ≤ 2147483647 := by
  unfold wrap32; omega

theorem wrap32_nonneg_of_nat (n : Nat) (h : n ≤ 4294967295) (hw : 0 ≤ wrap32 n) :
    wrap32 n = n := by
  unfold wrap32 at hw ⊢; omega

/-! ## The map -/

theorem mapGet_mapIncr_same (m : List (Int × Int)) (k : Int) :
    mapGet (mapIncr m k) k = some (wrap32 ((mapGet m k).getD 0 + 1)) := by
  induction m with
  | nil => simp [mapIncr, mapGet]
  | cons e t ih =>
    obtain ⟨k', v⟩ := e
    by_cases h : k' = k
    · simp [mapIncr, mapGet, h]
    · simp [mapIncr, mapGet, h, ih]

theorem mapGet_mapIncr_other (m : List (Int × Int)) (k c : Int) (h : k ≠ c) :
    mapGet (mapIncr m k) c = mapGet m c := by
  induction m with
  | nil => simp [mapIncr, mapGet, h]
  | cons e t ih =>
    obtain ⟨k', v⟩ := e
    by_cases h' : k' = k
    · subst h'
      simp [mapIncr, mapGet, h]
    · by_cases h'' : k' = c
      · subst h''
        simp [mapIncr, mapGet, h']
      · simp [mapIncr, mapGet, h', h'', ih]

theorem mapGet_mapIncr_mapVal (m : List (Int × Int)) (k : Int) (n : Nat)
    (h : mapGet m k = mapVal n) : mapGet (mapIncr m k) k = mapVal (n + 1) := by
  rw [mapGet_mapIncr_same, h]
  unfold mapVal
  by_cases hn : n = 0
  · subst hn; rfl
  · have h1 : n + 1 ≠ 0 := by omega
    rw [if_neg hn, if_neg h1, Option.getD_some, wrap32_wrap32_succ, Nat.cast_succ]

theorem mapGet_eq_none_iff (m : List (Int × Int)) (k : Int) :
    mapGet m k = none ↔ k ∉ mapKeys m := by
  induction m with
  | nil => simp [mapGet, mapKeys]
  | cons e t ih =>
    obtain ⟨k', v⟩ := e
    by_cases h : k' = k
    · simp [mapGet, mapKeys, h]
    · have h2 : ¬ k = k' := fun h3 => h h3.symm
      simp only [mapKeys] at ih
      simp [mapGet, mapKeys, h, h2, ih]

theorem mapKeys_mapIncr (m : List (Int × Int)) (k : Int) :
    mapKeys (mapIncr m k) = if k ∈ mapKeys m then mapKeys m else mapKeys m ++ [k] := by
  induction m with
  | nil => simp [mapIncr, mapKeys]
  | cons e t ih =>
    obtain ⟨k', v⟩ := e
    by_cases h : k' = k
    · simp [mapIncr, mapKeys, h]
    · have h2 : ¬ k = k' := fun h3 => h h3.symm
      simp only [mapKeys] at ih
      by_cases h3 : k ∈ List.map (fun e => e.1) t
      · simp [mapIncr, mapKeys, h, h2, ih, h3]
      · simp [mapIncr, mapKeys, h, h2, ih, h3]

theorem mapKeys_nodup_mapIncr (m : List (Int × Int)) (k : Int) (h : (mapKeys m).Nodup) :
    (mapKeys (mapIncr m k)).Nodup := by
  rw [mapKeys_mapIncr]
  by_cases hk : k ∈ mapKeys m
  · simp [hk, h]
  · simp only [hk, if_false]
    rw [List.nodup_append]
    refine ⟨h, by simp, ?_⟩
    intro a ha hb
    simp at hb
    subst hb
    exact hk ha

/-- A map with pairwise distinct keys whose only key is `k` is the one-entry
list. -/
theorem map_eq_singleton (m : List (Int × Int)) (k v : Int) (hnd : (mapKeys m).Nodup)
    (hk : mapGet m k = some v) (hother : ∀ c, c ≠ k → mapGet m c = none) : m = [(k, v)] := by
  match m, hnd, hk, hother with
  | [], _, hk, _ => simp [mapGet] at hk
  | (k', v') :: t, hnd, hk, hother =>
    have hk' : k' = k := by
      by_contra hne
      have := hother k' hne
      simp [mapGet] at this
    subst hk'
    simp only [mapGet, if_true, Option.some.injEq] at hk
    subst hk
    have ht : t = [] := by
      match t, hnd with
      | [], _ => rfl
      | (k2, v2) :: t2, hnd =>
        exfalso
        by_cases h2 : k2 = k'
        · subst h2; simp [mapKeys] at hnd
        · have := hother k2 h2
          have h3 : ¬ k' = k2 := fun h => h2 h.symm
          simp [mapGet, h3] at this
    rw [ht]

/-- A map without keys is empty. -/
theorem map_eq_nil (m : List (Int × Int)) (h : ∀ c, mapGet m c = none) : m = [] := by
  match m, h with
  | [], _ => rfl
  | (k, v) :: t, h => have := h k; simp [mapGet] at this

/-! ## Tallies -/

theorem weight_le_one (env : Env) (q : Tally) (pc : WorkerPc) : weight env q pc ≤ 1 := by
  cases q <;> cases pc <;> simp [weight] <;> (try split) <;> (try split) <;> simp

theorem wsum_nil (env : Env) (q : Tally) : wsum env q [] = 0 := rfl

theorem wsum_cons (env : Env) (q : Tally) (pc : WorkerPc) (ws : List WorkerPc) :
    wsum env q (pc :: ws) = weight env q pc + wsum env q ws := by
  simp [wsum]

theorem wsum_append_one (env : Env) (q : Tally) (ws : List WorkerPc) (pc : WorkerPc) :
    wsum env q (ws ++ [pc]) = wsum env q ws + weight env q pc := by
  simp [wsum]

theorem wsum_set (env : Env) (q : Tally) (ws : List WorkerPc) (i : Nat) (pc pc' : WorkerPc)
    (h : ws.get? i = some pc) :
    wsum env q (ws.set i pc') + weight env q pc = wsum env q ws + weight env q pc' := by
  induction ws generalizing i with
  | nil => simp at h
  | cons w t ih =>
    cases i with
    | zero =>
      simp at h
      subst h
      simp only [List.set, wsum_cons]
      omega
    | succ j =>
      simp at h
      have := ih j (by simpa using h)
      simp only [List.set, wsum_cons]
      omega

theorem wsum_le_length (env : Env) (q : Tally) (ws : List WorkerPc) :
    wsum env q ws ≤ ws.length := by
  induction ws with
  | nil => simp [wsum]
  | cons w t ih =>
    rw [wsum_cons]
    have := weight_le_one env q w
    simp only [List.length_cons]
    omega

theorem wsum_pos_exists (env : Env) (q : Tally) (ws : List WorkerPc) (h : 0 < wsum env q ws) :
    ∃ i pc, ws.get? i = some pc ∧ 0 < weight env q pc := by
  induction ws with
  | nil => simp [wsum] at h
  | cons w t ih =>
    rw [wsum_cons] at h
    by_cases hw : 0 < weight env q w
    · exact ⟨0, w, by simp, hw⟩
    · obtain ⟨i, pc, h1, h2⟩ := ih (by omega)
      exact ⟨i + 1, pc, by simpa using h1, h2⟩

theorem wsum_exited_lt_exists (env : Env) (ws : List WorkerPc)
    (h : wsum env .exited ws < ws.length) :
    ∃ i pc, ws.get? i = some pc ∧ pc ≠ WorkerPc.exited := by
  induction ws with
  | nil => simp at h
  | cons w t ih =>
    by_cases hw : w = WorkerPc.exited
    · subst hw
      rw [wsum_cons] at h
      simp only [weight, List.length_cons] at h
      obtain ⟨i, pc, h1, h2⟩ := ih (by omega)
      exact ⟨i + 1, pc, by simpa using h1, h2⟩
    · exact ⟨0, w, by simp, hw⟩

/-- When every worker has returned, nothing is pending. -/
theorem wsum_eq_zero_of_all_exited (env : Env) (q : Tally) (ws : List WorkerPc)
    (h : wsum env .exited ws = ws.length) (hq : weight env q .exited = 0) :
    wsum env q ws = 0 := by
  induction ws with
  | nil => rfl
  | cons w t ih =>
    rw [wsum_cons] at h ⊢
    have h1 := weight_le_one env .exited w
    have h2 := wsum_le_length env .exited t
    simp only [List.length_cons] at h
    have h3 : weight env .exited w = 1 := by omega
    have hw : w = WorkerPc.exited := by
      cases w <;> simp [weight] at h3
      rfl
    subst hw
    rw [hq, ih (by omega)]

theorem inFlight_eq_wsum (env : Env) (s : State) : s.inFlight = wsum env .inFlight s.workers := by
  unfold State.inFlight
  induction s.workers with
  | nil => rfl
  | cons w t ih =>
    rw [wsum_cons, List.filter_cons]
    cases w <;> simp [weight, ih]; omega

/-! ## Every run terminates -/

theorem rank_set (ws : List WorkerPc) (i : Nat) (pc pc' : WorkerPc)
    (h : ws.get? i = some pc) :
    ((ws.set i pc').map workerRank).sum + workerRank pc
      = (ws.map workerRank).sum + workerRank pc' := by
  induction ws generalizing i with
  | nil => simp at h
  | cons w t ih =>
    cases i with
    | zero =>
      simp at h
      subst h
      simp only [List.set, List.map_cons, List.sum_cons]
      omega
    | succ j =>
      have := ih j (by simpa using h)
      simp only [List.set, List.map_cons, List.sum_cons]
      omega

theorem stepMain_fuel (env : Env) (cfg : config) (s s' : State)
    (h : stepMain env cfg s = some s') : fuel cfg s' < fuel cfg s := by
  unfold stepMain at h
  split at h
  all_goals (try split at h) <;> (try split at h) <;> simp at h <;> subst h
  all_goals simp [fuel, mainRank, workerRank, *]
  all_goals omega

theorem fuel_set (cfg : config) (s s' : State) (i : Nat) (pc pc' : WorkerPc)
    (hget : s.workers.get? i = some pc) (hm : s'.main = s.main)
    (hw : s'.workers = s.workers.set i pc')
    (hlt : workerRank pc' + 9 * s'.jobs < workerRank pc + 9 * s.jobs) :
    fuel cfg s' < fuel cfg s := by
  have hr := rank_set s.workers i pc pc' hget
  unfold fuel
  rw [hm, hw]
  omega

theorem mainRank_pos (cfg : config) (pc : MainPc) (h : pc ≠ .panicked) :
    0 < mainRank cfg pc := by
  cases pc <;> simp [mainRank] at h ⊢

theorem worker_fuel (env : Env) (cfg : config) (s s' : State) (i : Nat)
    (hp : s.main ≠ .panicked) (h : worker env s i = some s') : fuel cfg s' < fuel cfg s := by
  unfold worker at h
  split at h
  · simp at h
  · rename_i pc hget
    cases pc <;> simp only at h
    all_goals (try split at h) <;> (try split at h) <;> (try split at h) <;> simp at h <;> subst h
    all_goals first
      | exact fuel_set cfg s _ i _ _ hget rfl rfl (by simp only [workerRank]; omega)
      | (have hpos := mainRank_pos cfg s.main hp
         have h0 : mainRank cfg .panicked = 0 := rfl
         simp only [fuel, h0]; omega)

theorem step_fuel (env : Env) (cfg : config) (s s' : State) (a : Action)
    (h : step env cfg s a = some s') : fuel cfg s' < fuel cfg s := by
  unfold step at h
  split at h
  · simp at h
  · rename_i hp
    cases a with
    | main =>
      simp only [Option.map_eq_some'] at h
      obtain ⟨t, ht, rfl⟩ := h
      exact stepMain_fuel env cfg s t ht
    | worker i =>
      simp only [Option.map_eq_some'] at h
      obtain ⟨t, ht, rfl⟩ := h
      exact worker_fuel env cfg s t i hp ht

/-! ## The invariant is preserved -/

theorem poolSize_spec (cfg : config) :
    0 ≤ poolSize cfg ∧ cfg.concurrency ≤ poolSize cfg ∧
      (0 ≤ cfg.concurrency → poolSize cfg = cfg.concurrency) ∧
      (cfg.concurrency < 0 → poolSize cfg = 0) := by
  unfold poolSize; omega

theorem core_init (env : Env) (cfg : config) : Core env cfg State.init where
  ctrl :=
    { hN := by simp [State.init]
      hW := by simp [State.init, added]
      hlen := by simp [State.init, started]
      hstarted := by simp [State.init, added]
      hlim := by simp [State.init]
      hsent := by simp [State.init, sent]
      hclosed := rfl }
  flow :=
    { hwg := by simp [State.init, wsum, added]
      hwg0 := by simp [State.init]
      hflow := by simp [State.init, wsum, sent]
      hexit := by simp [State.init, wsum]
      hdone := by simp [State.init] }
  data :=
    { htotal := by simp [State.init, wsum]; decide
      herr := ⟨0, by decide, rfl⟩
      hsucc := ⟨0, by decide, rfl⟩
      hhist := fun _ => ⟨0, rfl, rfl⟩
      hmu := rfl
      hkeys := by simp [State.init, mapKeys] }

theorem data_append_recv (env : Env) (ws : List WorkerPc) (calls : Nat) (total succ errs : Int)
    (hist : List (Int × Int)) (mu : Bool) (h : Data env ws calls total succ errs hist mu) :
    Data env (ws ++ [WorkerPc.recv]) calls total succ errs hist mu := by
  obtain ⟨h1, h2, h3, h4, h5, h6⟩ := h
  have e : ∀ q, wsum env q (ws ++ [WorkerPc.recv]) = wsum env q ws := by
    intro q
    rw [wsum_append_one]
    cases q <;> rfl
  exact ⟨by rw [e]; exact h1, by rw [e]; exact h2, by rw [e]; exact h3,
    fun c => by rw [e]; exact h4 c, by rw [e]; exact h5, h6⟩

theorem stepMain_core (env : Env) (cfg : config) (s s' : State) (hc : Core env cfg s)
    (h : stepMain env cfg s = some s') :
    (s'.main = .panicked ∧ (s'.workers.length : Int) ≤ poolSize cfg) ∨ Core env cfg s' := by
  obtain ⟨⟨hN, hW, hlen, hstarted, hlim, hsent, hclosed⟩, ⟨hwg, hwg0, hflow, hexit, -⟩, hd⟩ := hc
  obtain ⟨main, ws, jobs, closed, wg, mu, total, succ, errs, hist, calls, start, dur, tick⟩ := s
  dsimp only at *
  have hle := wsum_le_length env .exited ws
  have hpool := poolSize_spec cfg
  have e : ∀ q, wsum env q (ws ++ [WorkerPc.recv]) = wsum env q ws := by
    intro q
    rw [wsum_append_one]
    cases q <;> rfl
  cases main <;> simp only [stepMain] at h
  all_goals simp only [started, sent, added, afterClose] at *
  all_goals try simp only [ne_eq, reduceCtorEq, not_false_eq_true, true_implies, if_true, if_false,
    Bool.false_eq_true, false_implies, le_refl, true_and, not_true_eq_false] at hN hW hstarted hsent hwg
  all_goals try
    (have hz : wg = 0 := by omega
     subst hz
     simp only [Int.zero_add] at h)
  all_goals (try split at h) <;> (try split at h) <;> simp at h <;> subst h
  all_goals first
    | (left; exact ⟨rfl, by dsimp only; omega⟩)
    | right
  all_goals first
    | refine ⟨⟨?_, ?_, ?_, ?_, ?_, ?_, ?_⟩, ⟨?_, ?_, ?_, ?_, ?_⟩, hd⟩
    | refine ⟨⟨?_, ?_, ?_, ?_, ?_, ?_, ?_⟩, ⟨?_, ?_, ?_, ?_, ?_⟩,
        data_append_recv _ _ _ _ _ _ _ _ hd⟩
  all_goals simp only [started, sent, added, afterClose, e, List.length_append,
    List.length_singleton, Nat.cast_add, Nat.cast_one]
  all_goals first
    | omega
    | exact hexit
    | (intro hx
       have hx2 := hexit hx
       rw [hclosed] at hx2
       simp at hx2)
    | (simp; done)
    | (simp; omega)
    | assumption

theorem wsum_set_eq (env : Env) (q : Tally) (ws : List WorkerPc) (i : Nat) (pc pc' : WorkerPc)
    (h : ws.get? i = some pc) (hw : weight env q pc' = weight env q pc) :
    wsum env q (ws.set i pc') = wsum env q ws := by
  have := wsum_set env q ws i pc pc' h
  omega

theorem flow_set (env : Env) (cfg : config) (main : MainPc) (ws : List WorkerPc)
    (jobs jobs' : Nat) (wg wg' : Int) (closed : Bool) (calls calls' : Nat) (i : Nat)
    (pc pc' : WorkerPc) (hget : ws.get? i = some pc)
    (hf : Flow env cfg main ws jobs wg closed calls)
    (hx : weight env .exited pc = 0)
    (hwg' : wg' + (weight env .exited pc' : Int) = wg)
    (hfl : (jobs' : Int) + weight env .claimed pc' + weight env .counted pc' + calls'
      = jobs + weight env .claimed pc + weight env .counted pc + calls)
    (hex : weight env .exited pc' = 1 → closed = true ∧ jobs' = 0)
    (hj : jobs = 0 → jobs' = 0) (hw0 : wg = 0 → wg' = 0) (hnn : 0 ≤ wg') :
    Flow env cfg main (ws.set i pc') jobs' wg' closed calls' := by
  obtain ⟨hwg, -, hflow, hexit, hdone⟩ := hf
  have h1 := wsum_set env .exited ws i pc pc' hget
  have h2 := wsum_set env .claimed ws i pc pc' hget
  have h3 := wsum_set env .counted ws i pc pc' hget
  have h4 := weight_le_one env .exited pc'
  refine ⟨?_, hnn, ?_, ?_, fun hm => hw0 (hdone hm)⟩
  · rw [← hwg]; omega
  · rw [← hflow]; omega
  · intro hpos
    by_cases h0 : 0 < wsum env .exited ws
    · obtain ⟨hc, hj0⟩ := hexit h0
      exact ⟨hc, hj hj0⟩
    · exact hex (by omega)

theorem data_neutral (env : Env) (ws : List WorkerPc) (calls : Nat) (total succ errs : Int)
    (hist : List (Int × Int)) (mu : Bool) (i : Nat) (pc pc' : WorkerPc)
    (hget : ws.get? i = some pc)
    (hd : Data env ws calls total succ errs hist mu)
    (h1 : weight env .counted pc' = weight env .counted pc)
    (h2 : weight env .pendErr pc' = weight env .pendErr pc)
    (h3 : weight env .pendSucc pc' = weight env .pendSucc pc)
    (h4 : ∀ c, weight env (.pendHist c) pc' = weight env (.pendHist c) pc)
    (h5 : weight env .holds pc' = weight env .holds pc) :
    Data env (ws.set i pc') calls total succ errs hist mu := by
  obtain ⟨d1, d2, d3, d4, d5, d6⟩ := hd
  refine ⟨?_, ?_, ?_, ?_, ?_, d6⟩
  · rw [wsum_set_eq env _ ws i pc pc' hget h1]; exact d1
  · rw [wsum_set_eq env _ ws i pc pc' hget h2]; exact d2
  · rw [wsum_set_eq env _ ws i pc pc' hget h3]; exact d3
  · intro c; rw [wsum_set_eq env _ ws i pc pc' hget (h4 c)]; exact d4 c
  · rw [wsum_set_eq env _ ws i pc pc' hget h5]; exact d5

theorem data_count (env : Env) (ws : List WorkerPc) (calls : Nat) (total succ errs : Int)
    (hist : List (Int × Int)) (mu : Bool) (i : Nat)
    (hget : ws.get? i = some WorkerPc.count)
    (hd : Data env ws calls total succ errs hist mu) :
    Data env (ws.set i WorkerPc.call) calls (wrap32 (total + 1)) succ errs hist mu := by
  obtain ⟨d1, d2, d3, d4, d5, d6⟩ := hd
  have keep := fun q => wsum_set_eq env q ws i _ WorkerPc.call hget
  have hc := wsum_set env .counted ws i _ WorkerPc.call hget
  simp only [weight] at hc
  refine ⟨?_, ?_, ?_, ?_, ?_, d6⟩
  · rw [d1, wrap32_wrap32_succ]
    congr 1
    push_cast
    omega
  · rw [keep .pendErr rfl]; exact d2
  · rw [keep .pendSucc rfl]; exact d3
  · intro c; rw [keep (.pendHist c) rfl]; exact d4 c
  · rw [keep .holds rfl]; exact d5

theorem data_call (env : Env) (ws : List WorkerPc) (calls : Nat) (total succ errs : Int)
    (hist : List (Int × Int)) (mu : Bool) (i : Nat)
    (hget : ws.get? i = some WorkerPc.call)
    (hd : Data env ws calls total succ errs hist mu) :
    Data env (ws.set i (WorkerPc.request calls)) (calls + 1) total succ errs hist mu := by
  obtain ⟨d1, ⟨e, d2, d2'⟩, ⟨n, d3, d3'⟩, d4, d5, d6⟩ := hd
  have keep := fun q => wsum_set_eq env q ws i _ (WorkerPc.request calls) hget
  have hc := wsum_set env .counted ws i _ (WorkerPc.request calls) hget
  have he := wsum_set env .pendErr ws i _ (WorkerPc.request calls) hget
  have hs := wsum_set env .pendSucc ws i _ (WorkerPc.request calls) hget
  simp only [weight] at hc he hs
  refine ⟨?_, ⟨e, d2, ?_⟩, ⟨n, d3, ?_⟩, ?_, ?_, d6⟩
  · rw [d1]
    congr 1
    push_cast
    omega
  · simp only [countErrs]; omega
  · simp only [countStatus]; omega
  · intro c
    obtain ⟨m, hm, hm'⟩ := d4 c
    have hh := wsum_set env (.pendHist c) ws i _ (WorkerPc.request calls) hget
    simp only [weight] at hh
    exact ⟨m, hm, by simp only [countStatus]; omega⟩
  · rw [keep .holds rfl]; exact d5

theorem data_err (env : Env) (ws : List WorkerPc) (calls : Nat) (total succ errs : Int)
    (hist : List (Int × Int)) (mu : Bool) (i : Nat) (st : Int)
    (hget : ws.get? i = some (WorkerPc.got st true))
    (hd : Data env ws calls total succ errs hist mu) :
    Data env (ws.set i WorkerPc.recv) calls total succ (wrap32 (errs + 1)) hist mu := by
  obtain ⟨d1, ⟨e, d2, d2'⟩, d3, d4, d5, d6⟩ := hd
  have keep := fun q => wsum_set_eq env q ws i _ WorkerPc.recv hget
  have he := wsum_set env .pendErr ws i _ WorkerPc.recv hget
  simp only [weight] at he
  refine ⟨?_, ⟨e + 1, ?_, by omega⟩, ?_, ?_, ?_, d6⟩
  · rw [keep .counted rfl]; exact d1
  · rw [d2, wrap32_wrap32_succ, Nat.cast_succ]
  · rw [keep .pendSucc rfl]; exact d3
  · intro c; rw [keep (.pendHist c) rfl]; exact d4 c
  · rw [keep .holds rfl]; exact d5

theorem data_succ (env : Env) (ws : List WorkerPc) (calls : Nat) (total succ errs : Int)
    (hist : List (Int × Int)) (mu : Bool) (i : Nat)
    (hget : ws.get? i = some (WorkerPc.got StatusOK false))
    (hd : Data env ws calls total succ errs hist mu) :
    Data env (ws.set i (WorkerPc.lock StatusOK)) calls total (wrap32 (succ + 1)) errs hist mu := by
  obtain ⟨d1, d2, ⟨n, d3, d3'⟩, d4, d5, d6⟩ := hd
  have keep := fun q => wsum_set_eq env q ws i _ (WorkerPc.lock StatusOK) hget
  have hs := wsum_set env .pendSucc ws i _ (WorkerPc.lock StatusOK) hget
  simp only [weight, if_true] at hs
  refine ⟨?_, ?_, ⟨n + 1, ?_, by omega⟩, ?_, ?_, d6⟩
  · rw [keep .counted rfl]; exact d1
  · rw [keep .pendErr rfl]; exact d2
  · rw [d3, wrap32_wrap32_succ, Nat.cast_succ]
  · intro c; rw [keep (.pendHist c) rfl]; exact d4 c
  · rw [keep .holds rfl]; exact d5

theorem data_lock (env : Env) (ws : List WorkerPc) (calls : Nat) (total succ errs : Int)
    (hist : List (Int × Int)) (i : Nat) (st : Int)
    (hget : ws.get? i = some (WorkerPc.lock st))
    (hd : Data env ws calls total succ errs hist false) :
    Data env (ws.set i (WorkerPc.incr st)) calls total succ errs hist true := by
  obtain ⟨d1, d2, d3, d4, d5, d6⟩ := hd
  have keep := fun q => wsum_set_eq env q ws i _ (WorkerPc.incr st) hget
  have hh := wsum_set env .holds ws i _ (WorkerPc.incr st) hget
  simp only [weight] at hh
  refine ⟨?_, ?_, ?_, ?_, ?_, d6⟩
  · rw [keep .counted rfl]; exact d1
  · rw [keep .pendErr rfl]; exact d2
  · rw [keep .pendSucc rfl]; exact d3
  · intro c; rw [keep (.pendHist c) rfl]; exact d4 c
  · simp only [Bool.false_eq_true, if_false, if_true] at d5 ⊢
    omega

theorem data_incr (env : Env) (ws : List WorkerPc) (calls : Nat) (total succ errs : Int)
    (hist : List (Int × Int)) (mu : Bool) (i : Nat) (st : Int)
    (hget : ws.get? i = some (WorkerPc.incr st))
    (hd : Data env ws calls total succ errs hist mu) :
    Data env (ws.set i WorkerPc.unlock) calls total succ errs (mapIncr hist st) mu := by
  obtain ⟨d1, d2, d3, d4, d5, d6⟩ := hd
  have keep := fun q => wsum_set_eq env q ws i _ WorkerPc.unlock hget
  refine ⟨?_, ?_, ?_, ?_, ?_, mapKeys_nodup_mapIncr hist st d6⟩
  · rw [keep .counted rfl]; exact d1
  · rw [keep .pendErr rfl]; exact d2
  · rw [keep .pendSucc rfl]; exact d3
  · intro c
    obtain ⟨m, hm, hm'⟩ := d4 c
    have hh := wsum_set env (.pendHist c) ws i _ WorkerPc.unlock hget
    simp only [weight] at hh
    by_cases hc : st = c
    · subst hc
      simp only [if_true] at hh
      exact ⟨m + 1, mapGet_mapIncr_mapVal hist st m hm, by omega⟩
    · simp only [hc, if_false] at hh
      exact ⟨m, by rw [mapGet_mapIncr_other hist st c hc]; exact hm, by omega⟩
  · rw [keep .holds rfl]; exact d5

theorem data_unlock (env : Env) (ws : List WorkerPc) (calls : Nat) (total succ errs : Int)
    (hist : List (Int × Int)) (mu : Bool) (i : Nat)
    (hget : ws.get? i = some WorkerPc.unlock)
    (hd : Data env ws calls total succ errs hist mu) :
    Data env (ws.set i WorkerPc.recv) calls total succ errs hist false := by
  obtain ⟨d1, d2, d3, d4, d5, d6⟩ := hd
  have keep := fun q => wsum_set_eq env q ws i _ WorkerPc.recv hget
  have hh := wsum_set env .holds ws i _ WorkerPc.recv hget
  simp only [weight] at hh
  refine ⟨?_, ?_, ?_, ?_, ?_, d6⟩
  · rw [keep .counted rfl]; exact d1
  · rw [keep .pendErr rfl]; exact d2
  · rw [keep .pendSucc rfl]; exact d3
  · intro c; rw [keep (.pendHist c) rfl]; exact d4 c
  · cases mu <;> simp only [Bool.false_eq_true, if_false, if_true] at d5 ⊢ <;> omega

theorem flow_neutral (env : Env) (cfg : config) (main : MainPc) (ws : List WorkerPc)
    (jobs : Nat) (wg : Int) (closed : Bool) (calls : Nat) (i : Nat)
    (pc pc' : WorkerPc) (hget : ws.get? i = some pc)
    (hf : Flow env cfg main ws jobs wg closed calls)
    (h1 : weight env .exited pc = 0) (h2 : weight env .exited pc' = 0)
    (h3 : weight env .claimed pc' = weight env .claimed pc)
    (h4 : weight env .counted pc' = weight env .counted pc) :
    Flow env cfg main (ws.set i pc') jobs wg closed calls :=
  flow_set env cfg main ws jobs jobs wg wg closed calls calls i pc pc' hget hf h1
    (by rw [h2]; simp) (by rw [h3, h4]) (by rw [h2]; simp) (fun h => h) (fun h => h) hf.hwg0

theorem worker_core (env : Env) (cfg : config) (s s' : State) (i : Nat) (hc : Core env cfg s)
    (h : worker env s i = some s') :
    (s'.main = .panicked ∧ (s'.workers.length : Int) ≤ poolSize cfg) ∨ Core env cfg s' := by
  obtain ⟨hctrl, hflow, hd⟩ := hc
  have hsize : (s.workers.length : Int) ≤ poolSize cfg := by
    have h1 := hctrl.hlen
    have h2 := hctrl.hstarted
    have h3 := poolSize_spec cfg
    cases hm : s.main <;> rw [hm] at h1 h2 <;> simp only [started, added] at h1 h2 <;>
      first
        | omega
        | (have h4 := h2 trivial
           omega)
  have hwg1 := hflow.hwg
  have hwg0 := hflow.hwg0
  have hwle := wrap32_le cfg.concurrency
  obtain ⟨main, ws, jobs, closed, wg, mu, total, succ, errs, hist, calls, start, dur, tick⟩ := s
  dsimp only at *
  unfold worker at h
  dsimp only at h
  split at h
  · simp at h
  · rename_i pc hget
    have hl : ∀ pc', (ws.set i pc').length = ws.length := fun pc' => List.length_set ws i pc'
    cases pc <;> simp only at h
    case recv =>
      split at h
      · rename_i hj
        simp at h; subst h
        right
        refine ⟨by rw [hl]; exact hctrl, ?_, ?_⟩
        · exact flow_set env cfg main ws jobs (jobs - 1) wg wg closed calls calls i _ _ hget
            hflow rfl (by simp [weight]) (by simp only [weight]; omega) (by simp [weight])
            (by omega) (fun h => h) hwg0
        · exact data_neutral env ws calls total succ errs hist mu i _ _ hget hd rfl rfl rfl
            (fun _ => rfl) rfl
      · rename_i hj
        split at h
        · rename_i hcl
          split at h
          · simp at h; subst h
            left; exact ⟨rfl, hsize⟩
          · rename_i hnp
            simp at h; subst h
            right
            have hex := wsum_le_length env .exited ws
            have hval : wrap32 (wg - 1) = wg - 1 ∧ 1 ≤ wg := by
              split at hwg1
              · unfold wrap32 at hnp ⊢; omega
              · unfold wrap32 at hnp ⊢; omega
            refine ⟨by rw [hl]; exact hctrl, ?_, ?_⟩
            · exact flow_set env cfg main ws jobs jobs wg (wrap32 (wg - 1)) closed calls calls
                i _ _ hget hflow rfl (by simp only [weight]; omega) (by simp only [weight])
                (fun _ => ⟨hcl, by omega⟩) (fun h => h) (by omega) (by omega)
            · exact data_neutral env ws calls total succ errs hist mu i _ _ hget hd rfl rfl rfl
                (fun _ => rfl) rfl
        · simp at h
    case count =>
      simp at h; subst h
      right
      refine ⟨by rw [hl]; exact hctrl, ?_, data_count env ws calls total succ errs hist mu i hget hd⟩
      exact flow_set env cfg main ws jobs jobs wg wg closed calls calls i _ _ hget
        hflow rfl (by simp [weight]) (by simp only [weight]; omega) (by simp [weight]) (fun h => h)
        (fun h => h) hwg0
    case call =>
      simp at h; subst h
      right
      refine ⟨by rw [hl]; exact hctrl, ?_, data_call env ws calls total succ errs hist mu i hget hd⟩
      exact flow_set env cfg main ws jobs jobs wg wg closed calls (calls + 1) i _ _ hget
        hflow rfl (by simp [weight]) (by simp only [weight]; push_cast; omega) (by simp [weight])
        (fun h => h) (fun h => h) hwg0
    case request k =>
      simp at h; subst h
      right
      refine ⟨by rw [hl]; exact hctrl, ?_, ?_⟩
      · exact flow_neutral env cfg main ws jobs wg closed calls i _ _ hget hflow rfl rfl rfl rfl
      · refine data_neutral env ws calls total succ errs hist mu i _
          (WorkerPc.got (performRequest (env.get k)).1 (performRequest (env.get k)).2)
          hget hd rfl ?_ ?_ ?_ rfl
        · cases hk : env.get k <;> simp [performRequest, weight, hk]
        · cases hk : env.get k <;> simp [performRequest, weight, hk]
        · intro c
          cases hk : env.get k <;> simp [performRequest, weight, hk]
    case got st e =>
      split at h
      · rename_i he
        subst he
        simp at h; subst h
        right
        refine ⟨by rw [hl]; exact hctrl, ?_, data_err env ws calls total succ errs hist mu i st hget hd⟩
        exact flow_neutral env cfg main ws jobs wg closed calls i _ _ hget hflow rfl rfl rfl rfl
      · rename_i he
        have he' : e = false := by cases e <;> simp at he ⊢
        subst he'
        split at h
        · rename_i hst
          subst hst
          simp at h; subst h
          right
          refine ⟨by rw [hl]; exact hctrl, ?_, data_succ env ws calls total succ errs hist mu i hget hd⟩
          exact flow_neutral env cfg main ws jobs wg closed calls i _ _ hget hflow rfl rfl rfl rfl
        · rename_i hst
          simp at h; subst h
          right
          refine ⟨by rw [hl]; exact hctrl, ?_, ?_⟩
          · exact flow_neutral env cfg main ws jobs wg closed calls i _ _ hget hflow rfl rfl rfl rfl
          · exact data_neutral env ws calls total succ errs hist mu i _ _ hget hd rfl rfl
              (by simp [weight, hst]) (fun _ => rfl) rfl
    case lock st =>
      split at h
      · simp at h
      · rename_i hmu
        have hmu' : mu = false := by cases mu <;> simp at hmu ⊢
        subst hmu'
        simp at h; subst h
        right
        refine ⟨by rw [hl]; exact hctrl, ?_, data_lock env ws calls total succ errs hist i st hget hd⟩
        exact flow_neutral env cfg main ws jobs wg closed calls i _ _ hget hflow rfl rfl rfl rfl
    case incr st =>
      simp at h; subst h
      right
      refine ⟨by rw [hl]; exact hctrl, ?_, data_incr env ws calls total succ errs hist mu i st hget hd⟩
      exact flow_neutral env cfg main ws jobs wg closed calls i _ _ hget hflow rfl rfl rfl rfl
    case unlock =>
      simp at h; subst h
      right
      refine ⟨by rw [hl]; exact hctrl, ?_, data_unlock env ws calls total succ errs hist mu i hget hd⟩
      exact flow_neutral env cfg main ws jobs wg closed calls i _ _ hget hflow rfl rfl rfl rfl
    case exited => simp at h

theorem core_tick (env : Env) (cfg : config) (s : State) (t : Nat) (h : Core env cfg s) :
    Core env cfg { s with tick := t } :=
  ⟨h.ctrl, h.flow, h.data⟩

theorem step_inv (env : Env) (cfg : config) (s s' : State) (a : Action)
    (hi : Inv env cfg s) (h : step env cfg s a = some s') : Inv env cfg s' := by
  unfold step at h
  split at h
  · simp at h
  · rename_i hp
    have hc : Core env cfg s := by
      rcases hi with hi | hi
      · exact absurd hi.1 hp
      · exact hi
    cases a with
    | main =>
      simp only [Option.map_eq_some'] at h
      obtain ⟨t, ht, rfl⟩ := h
      rcases stepMain_core env cfg s t hc ht with h1 | h1
      · exact Or.inl h1
      · exact Or.inr (core_tick env cfg t _ h1)
    | worker i =>
      simp only [Option.map_eq_some'] at h
      obtain ⟨t, ht, rfl⟩ := h
      rcases worker_core env cfg s t i hc ht with h1 | h1
      · exact Or.inl h1
      · exact Or.inr (core_tick env cfg t _ h1)

theorem exec_inv (env : Env) (cfg : config) (sched : List Action) (s s' : State)
    (hi : Inv env cfg s) (h : exec env cfg s sched = some s') : Inv env cfg s' := by
  induction sched generalizing s with
  | nil =>
    simp only [exec, Option.some.injEq] at h
    subst h
    exact hi
  | cons a rest ih =>
    simp only [exec] at h
    split at h
    · simp at h
    · rename_i t ht
      exact ih t (step_inv env cfg s t a hi ht) h

theorem reachable_inv (env : Env) (cfg : config) (s : State) (h : Reachable env cfg s) :
    Inv env cfg s := by
  obtain ⟨sched, hs⟩ := h
  exact exec_inv env cfg sched State.init s (Or.inr (core_init env cfg)) hs

theorem exec_fuel (env : Env) (cfg : config) (sched : List Action) (s s' : State)
    (h : exec env cfg s sched = some s') : fuel cfg s' + sched.length ≤ fuel cfg s := by
  induction sched generalizing s with
  | nil =>
    simp only [exec, Option.some.injEq] at h
    subst h
    simp
  | cons a rest ih =>
    simp only [exec] at h
    split at h
    · simp at h
    · rename_i t ht
      have h1 := ih t h
      have h2 := step_fuel env cfg s t a ht
      simp only [List.length_cons]
      omega

theorem exec_append (env : Env) (cfg : config) (s1 : List Action) (s2 : List Action)
    (s : State) :
    exec env cfg s (s1 ++ s2) = (exec env cfg s s1).bind (fun t => exec env cfg t s2) := by
  induction s1 generalizing s with
  | nil => simp [exec]
  | cons a rest ih =>
    simp only [List.cons_append, exec]
    split
    · simp
    · rename_i t ht
      exact ih t

/-! ## No panic on a configuration whose fields fit the counters -/

theorem stepMain_no_panic (env : Env) (cfg : config) (s s' : State) (hc : Core env cfg s)
    (hN : 0 ≤ cfg.requests) (hC : 0 ≤ cfg.concurrency) (hC' : cfg.concurrency ≤ 2147483647)
    (h : stepMain env cfg s = some s') : s'.main ≠ .panicked := by
  obtain ⟨⟨-, -, hlen, hst, -, -, -⟩, ⟨hwg, hwg0, -, -, -⟩, -⟩ := hc
  obtain ⟨main, ws, jobs, closed, wg, mu, total, succ, errs, hist, calls, start, dur, tick⟩ := s
  dsimp only at *
  have hle := wsum_le_length env .exited ws
  have hpool := poolSize_spec cfg
  have hwc : wrap32 cfg.concurrency = cfg.concurrency := wrap32_of_int32 _ (by omega) hC'
  cases main <;> simp only [stepMain] at h
  all_goals simp only [started, added, Bool.false_eq_true, if_false, if_true, false_implies,
    true_implies] at hlen hwg hst
  all_goals try
    (have hz : wg = 0 := by omega
     subst hz
     simp only [Int.zero_add] at h)
  all_goals (try split at h) <;> (try split at h) <;> simp at h <;> subst h
  all_goals first
    | (simp; done)
    | (exfalso
       simp only [maxGoroutines] at *
       omega)

theorem worker_no_panic (env : Env) (cfg : config) (s s' : State) (i : Nat)
    (hc : Core env cfg s) (hp : s.main ≠ .panicked)
    (hC : 0 ≤ cfg.concurrency) (hC' : cfg.concurrency ≤ 2147483647)
    (h : worker env s i = some s') : s'.main ≠ .panicked := by
  obtain ⟨⟨-, -, hlen, hst, -, -, -⟩, ⟨hwg, hwg0, -, -, -⟩, -⟩ := hc
  obtain ⟨main, ws, jobs, closed, wg, mu, total, succ, errs, hist, calls, start, dur, tick⟩ := s
  dsimp only at *
  have hpool := poolSize_spec cfg
  have hwc : wrap32 cfg.concurrency = cfg.concurrency := wrap32_of_int32 _ (by omega) hC'
  unfold worker at h
  dsimp only at h
  split at h
  · simp at h
  · rename_i pc hget
    have h1 := wsum_set env .exited ws i pc WorkerPc.exited hget
    have h2 := wsum_le_length env .exited (ws.set i WorkerPc.exited)
    rw [List.length_set] at h2
    cases pc <;> simp only at h
    case recv =>
      simp only [weight] at h1
      split at h
      · simp at h; subst h; exact hp
      · split at h
        · split at h
          · rename_i hneg
            exfalso
            cases hadd : added main
            · have h0 : started cfg main = 0 := by cases main <;> simp_all [added, started]
              omega
            · rw [hadd] at hwg
              have h3 := hst hadd
              simp only [if_true] at hwg
              unfold wrap32 at hneg
              omega
          · simp at h; subst h; exact hp
        · simp at h
    all_goals (try split at h) <;> (try split at h) <;> simp at h <;> subst h <;> exact hp

theorem step_no_panic (env : Env) (cfg : config) (s s' : State) (a : Action)
    (hN : 0 ≤ cfg.requests) (hC : 0 ≤ cfg.concurrency) (hC' : cfg.concurrency ≤ 2147483647)
    (hc : Core env cfg s) (h : step env cfg s a = some s') : s'.main ≠ .panicked := by
  unfold step at h
  split at h
  · simp at h
  · rename_i hp
    cases a with
    | main =>
      simp only [Option.map_eq_some'] at h
      obtain ⟨t, ht, rfl⟩ := h
      exact stepMain_no_panic env cfg s t hc hN hC hC' ht
    | worker i =>
      simp only [Option.map_eq_some'] at h
      obtain ⟨t, ht, rfl⟩ := h
      exact worker_no_panic env cfg s t i hc hp hC hC' ht

theorem step_core (env : Env) (cfg : config) (s s' : State) (a : Action)
    (hN : 0 ≤ cfg.requests) (hC : 0 ≤ cfg.concurrency) (hC' : cfg.concurrency ≤ 2147483647)
    (hc : Core env cfg s) (h : step env cfg s a = some s') : Core env cfg s' := by
  have hi := step_inv env cfg s s' a (Or.inr hc) h
  have hnp := step_no_panic env cfg s s' a hN hC hC' hc h
  rcases hi with hi | hi
  · exact absurd hi.1 hnp
  · exact hi

theorem exec_core (env : Env) (cfg : config) (sched : List Action) (s s' : State)
    (hN : 0 ≤ cfg.requests) (hC : 0 ≤ cfg.concurrency) (hC' : cfg.concurrency ≤ 2147483647)
    (hc : Core env cfg s) (h : exec env cfg s sched = some s') : Core env cfg s' := by
  induction sched generalizing s with
  | nil =>
    simp only [exec, Option.some.injEq] at h
    subst h
    exact hc
  | cons a rest ih =>
    simp only [exec] at h
    split at h
    · simp at h
    · rename_i t ht
      exact ih t (step_core env cfg s t a hN hC hC' hc ht) h

/-- A run on a configuration with `0 <= requests` and
`0 <= concurrency <= 2147483647` never panics. -/
theorem exec_no_panic (env : Env) (cfg : config) (sched : List Action) (s : State)
    (hN : 0 ≤ cfg.requests) (hC : 0 ≤ cfg.concurrency) (hC' : cfg.concurrency ≤ 2147483647)
    (h : exec env cfg State.init sched = some s) : s.main ≠ .panicked := by
  cases sched with
  | nil =>
    simp only [exec, Option.some.injEq] at h
    subst h
    simp [State.init]
  | cons a rest =>
    rw [show a :: rest = (a :: rest).dropLast ++ [(a :: rest).getLast (by simp)] from
      (List.dropLast_append_getLast _).symm, exec_append] at h
    cases hpre : exec env cfg State.init (a :: rest).dropLast with
    | none => simp [hpre] at h
    | some t =>
      simp only [hpre, Option.some_bind, exec] at h
      split at h
      · simp at h
      · rename_i u hu
        simp only [Option.some.injEq] at h
        subst h
        exact step_no_panic env cfg t u _ hN hC hC'
          (exec_core env cfg _ State.init t hN hC hC' (core_init env cfg) hpre) hu

/-! ## The state at the `return` of `runLoadTest` -/

/-- When `runLoadTest` returns, every worker has returned, and every counter is
the `int32` value of the number of outcomes of its kind among the calls
issued. -/
theorem core_done (env : Env) (cfg : config) (s : State) (hc : Core env cfg s)
    (hm : s.main = .done) :
    s.totalRequests = wrap32 s.calls ∧
    s.errorsCount = wrap32 (countErrs env.get s.calls) ∧
    s.success200 = wrap32 (countStatus env.get StatusOK s.calls) ∧
    (∀ c, mapGet s.statusCounters c = mapVal (countStatus env.get c s.calls)) ∧
    (mapKeys s.statusCounters).Nodup ∧
    (s.jobs : Int) + s.calls = cfg.requests ∧
    (0 < cfg.concurrency → s.jobs = 0) := by
  obtain ⟨⟨-, hW, hlen, -, hlim, -, -⟩, ⟨hwg, -, hflow, hexit, hdone⟩,
    ⟨d1, ⟨e, d2, d2'⟩, ⟨n, d3, d3'⟩, d4, -, d6⟩⟩ := hc
  have hw := hdone hm
  rw [hm] at hlen hwg hflow hW
  simp only [started, added, sent, if_true, true_implies] at hlen hwg hflow hW
  have hpool := poolSize_spec cfg
  have hle := wsum_le_length env .exited s.workers
  have hall : wsum env .exited s.workers = s.workers.length := by
    simp only [maxGoroutines] at hlim
    unfold wrap32 at hwg hW
    omega
  have z := fun q hq => wsum_eq_zero_of_all_exited env q s.workers hall hq
  have z1 := z .counted rfl
  have z2 := z .pendErr rfl
  have z3 := z .pendSucc rfl
  have z4 := z .claimed rfl
  refine ⟨?_, ?_, ?_, ?_, d6, ?_, ?_⟩
  · rw [d1, z1, Nat.zero_add]
  · rw [d2]; congr 2; omega
  · rw [d3]; congr 2; omega
  · intro c
    obtain ⟨m, hm1, hm2⟩ := d4 c
    have z5 := z (.pendHist c) rfl
    rw [hm1]; congr 1; omega
  · omega
  · intro hpos
    exact (hexit (by omega)).2

/-- When `runLoadTest` returns, the concurrency is below 2147483648: for a
larger one `wg.Add` has panicked or the pool could not be started. -/
theorem core_done_concurrency (env : Env) (cfg : config) (s : State) (hc : Core env cfg s)
    (hm : s.main = .done) : cfg.concurrency ≤ 2147483647 := by
  obtain ⟨⟨-, hW, hlen, -, hlim, -, -⟩, -, -⟩ := hc
  rw [hm] at hlen hW
  simp only [started, added, true_implies] at hlen hW
  have hpool := poolSize_spec cfg
  simp only [maxGoroutines] at hlim
  unfold wrap32 at hW
  omega

/-! ## No deadlock -/

theorem step_main_some (env : Env) (cfg : config) (s t : State) (hp : s.main ≠ .panicked)
    (h : stepMain env cfg s = some t) :
    step env cfg s .main = some { t with tick := s.tick + 1 } := by
  unfold step
  split
  · rename_i heq; exact absurd heq hp
  · simp [h]

theorem step_worker_some (env : Env) (cfg : config) (s t : State) (i : Nat)
    (hp : s.main ≠ .panicked) (h : worker env s i = some t) :
    step env cfg s (.worker i) = some { t with tick := s.tick + 1 } := by
  unfold step
  split
  · rename_i heq; exact absurd heq hp
  · simp [h]

theorem worker_enabled (env : Env) (s : State) (i : Nat) (pc : WorkerPc)
    (hget : s.workers.get? i = some pc) (hx : pc ≠ .exited)
    (hrecv : pc = .recv → 0 < s.jobs ∨ s.closed = true)
    (hlock : ∀ st, pc = .lock st → s.statusMu = false) :
    ∃ t, worker env s i = some t := by
  unfold worker
  rw [hget]
  cases pc <;> dsimp only
  case recv =>
    rcases hrecv rfl with h | h
    · rw [if_pos h]; exact ⟨_, rfl⟩
    · by_cases hj : 0 < s.jobs
      · rw [if_pos hj]; exact ⟨_, rfl⟩
      · rw [if_neg hj, if_pos h]
        split <;> exact ⟨_, rfl⟩
  case count => exact ⟨_, rfl⟩
  case call => exact ⟨_, rfl⟩
  case request k => exact ⟨_, rfl⟩
  case got st e =>
    split
    · exact ⟨_, rfl⟩
    · split <;> exact ⟨_, rfl⟩
  case lock st =>
    rw [hlock st rfl]
    exact ⟨_, rfl⟩
  case incr st => exact ⟨_, rfl⟩
  case unlock => exact ⟨_, rfl⟩
  case exited => exact absurd rfl hx

/-- A run that has neither returned nor panicked can always take a step: the
program has no deadlock. -/
theorem progress (env : Env) (cfg : config) (s : State) (hc : Core env cfg s)
    (hC : 0 ≤ cfg.concurrency) (hC' : cfg.concurrency ≤ 2147483647)
    (hd : s.main ≠ .done) (hp : s.main ≠ .panicked) :
    ∃ a s', step env cfg s a = some s' := by
  have hpool := poolSize_spec cfg
  have hwc : wrap32 cfg.concurrency = cfg.concurrency := wrap32_of_int32 _ (by omega) hC'
  have hmain : (∃ t, stepMain env cfg s = some t) → ∃ a s', step env cfg s a = some s' :=
    fun ⟨t, ht⟩ => ⟨.main, _, step_main_some env cfg s t hp ht⟩
  have hwork : ∀ i t, worker env s i = some t → ∃ a s', step env cfg s a = some s' :=
    fun i t ht => ⟨.worker i, _, step_worker_some env cfg s t i hp ht⟩
  obtain ⟨⟨-, -, hlen, -, -, hsent, hclosed⟩, ⟨hwg, hwg0, hflow, -, -⟩,
    ⟨-, -, -, -, hmu, -⟩⟩ := hc
  cases hm : s.main with
  | make =>
    apply hmain
    unfold stepMain; rw [hm]; dsimp only
    split <;> exact ⟨_, rfl⟩
  | add =>
    apply hmain
    unfold stepMain; rw [hm]; dsimp only
    split <;> exact ⟨_, rfl⟩
  | spawn i =>
    apply hmain
    unfold stepMain; rw [hm]; dsimp only
    split
    · split <;> exact ⟨_, rfl⟩
    · exact ⟨_, rfl⟩
  | send i =>
    apply hmain
    unfold stepMain; rw [hm]; dsimp only
    rw [hm] at hflow
    simp only [sent] at hflow
    by_cases hi : i < cfg.requests
    · rw [if_pos hi, if_pos (by omega)]; exact ⟨_, rfl⟩
    · rw [if_neg hi]; exact ⟨_, rfl⟩
  | close =>
    apply hmain
    unfold stepMain; rw [hm]; exact ⟨_, rfl⟩
  | done => exact absurd hm hd
  | panicked => exact absurd hm hp
  | wait =>
    rw [hm] at hlen hwg hclosed
    simp only [started, added, afterClose, if_true] at hlen hwg hclosed
    by_cases hw : s.wg = 0
    · apply hmain
      unfold stepMain; rw [hm]; dsimp only
      rw [if_pos hw]; exact ⟨_, rfl⟩
    · have hle := wsum_le_length env .exited s.workers
      obtain ⟨i, pc, hget, hne⟩ := wsum_exited_lt_exists env s.workers (by omega)
      by_cases hl : ∃ st, pc = .lock st
      · obtain ⟨st, rfl⟩ := hl
        cases hmv : s.statusMu
        · obtain ⟨t, ht⟩ := worker_enabled env s i _ hget hne (by simp) (fun _ _ => hmv)
          exact hwork i t ht
        · rw [hmv] at hmu
          simp only [if_true] at hmu
          obtain ⟨j, pc', hget', hpos⟩ := wsum_pos_exists env .holds s.workers (by omega)
          have : pc' ≠ .exited ∧ pc' ≠ .recv ∧ ∀ st', pc' ≠ .lock st' := by
            cases pc' <;> simp [weight] at hpos ⊢
          obtain ⟨t, ht⟩ := worker_enabled env s j pc' hget' this.1
            (fun h => absurd h this.2.1) (fun st' h => absurd h (this.2.2 st'))
          exact hwork j t ht
      · obtain ⟨t, ht⟩ := worker_enabled env s i pc hget hne (fun _ => Or.inr hclosed)
          (fun st h => absurd ⟨st, h⟩ hl)
        exact hwork i t ht

/-! ## Every run can be completed, and what it returns -/

theorem exists_completion (env : Env) (cfg : config)
    (hN : 0 ≤ cfg.requests) (hC : 0 ≤ cfg.concurrency) (hC' : cfg.concurrency ≤ 2147483647) :
    ∀ (n : Nat) (s : State), fuel cfg s ≤ n → Core env cfg s → s.main ≠ .panicked →
      ∃ sched s', exec env cfg s sched = some s' ∧ s'.main = .done := by
  intro n
  induction n with
  | zero =>
    intro s hf _ hp
    have := mainRank_pos cfg s.main hp
    unfold fuel at hf
    omega
  | succ n ih =>
    intro s hf hc hp
    by_cases hd : s.main = .done
    · exact ⟨[], s, rfl, hd⟩
    · obtain ⟨a, s', hs⟩ := progress env cfg s hc hC hC' hd hp
      have h1 := step_fuel env cfg s s' a hs
      obtain ⟨sched, s'', he, hd'⟩ := ih s' (by omega)
        (step_core env cfg s s' a hN hC hC' hc hs)
        (step_no_panic env cfg s s' a hN hC hC' hc hs)
      exact ⟨a :: sched, s'', by simp only [exec, hs]; exact he, hd'⟩

theorem runLoadTest_eq_some (env : Env) (cfg : config) (sched : List Action) (r : report) :
    runLoadTest env cfg sched = some r ↔
      ∃ s, exec env cfg State.init sched = some s ∧ s.main = .done ∧ r = s.report := by
  unfold runLoadTest
  constructor
  · intro h
    split at h
    · simp at h
    · rename_i s hs
      split at h
      · rename_i hm
        simp only [Option.some.injEq] at h
        exact ⟨s, hs, hm, h.symm⟩
      · simp at h
  · rintro ⟨s, hs, hm, rfl⟩
    rw [hs]
    simp [hm]

/-- Every partial execution of `runLoadTest` on a configuration with
`0 <= requests` and `0 <= concurrency <= 2147483647` can be continued until
`runLoadTest` returns. -/
theorem runLoadTest_completes (env : Env) (cfg : config)
    (hN : 0 ≤ cfg.requests) (hC : 0 ≤ cfg.concurrency) (hC' : cfg.concurrency ≤ 2147483647)
    (sched : List Action) (s : State)
    (h : exec env cfg State.init sched = some s) :
    ∃ rest r, runLoadTest env cfg (sched ++ rest) = some r := by
  have hc := exec_core env cfg sched State.init s hN hC hC' (core_init env cfg) h
  have hp := exec_no_panic env cfg sched s hN hC hC' h
  obtain ⟨rest, s', he, hd⟩ := exists_completion env cfg hN hC hC' (fuel cfg s) s (le_refl _)
    hc hp
  refine ⟨rest, s'.report, ?_⟩
  rw [runLoadTest_eq_some]
  exact ⟨s', by rw [exec_append, h]; exact he, hd, rfl⟩

/-- No execution of `runLoadTest` is longer than the fuel of the initial
state: every schedule terminates. -/
theorem runLoadTest_terminates (env : Env) (cfg : config) (sched : List Action) (s : State)
    (h : exec env cfg State.init sched = some s) :
    sched.length ≤ 7 + 10 * cfg.requests.toNat + 2 * cfg.concurrency.toNat := by
  have := exec_fuel env cfg sched State.init s h
  have h0 : fuel cfg State.init = 7 + 10 * cfg.requests.toNat + 2 * cfg.concurrency.toNat := by
    simp [fuel, State.init, mainRank]
  omega

/-- The report of a run, in terms of the outcomes of the calls issued. -/
theorem runLoadTest_report (env : Env) (cfg : config) (sched : List Action) (r : report)
    (h : runLoadTest env cfg sched = some r) :
    ∃ calls : Nat,
      r.totalRequests = wrap32 calls ∧
      r.errors = wrap32 (countErrs env.get calls) ∧
      r.success200 = wrap32 (countStatus env.get StatusOK calls) ∧
      (∀ c, mapGet r.statusCounters c = mapVal (countStatus env.get c calls)) ∧
      (mapKeys r.statusCounters).Nodup ∧
      (calls : Int) ≤ cfg.requests ∧
      (0 < cfg.concurrency → (calls : Int) = cfg.requests) := by
  rw [runLoadTest_eq_some] at h
  obtain ⟨s, hs, hm, rfl⟩ := h
  have hi := exec_inv env cfg sched State.init s (Or.inr (core_init env cfg)) hs
  have hc : Core env cfg s := by
    rcases hi with hi | hi
    · rw [hm] at hi; cases hi.1
    · exact hi
  obtain ⟨h1, h2, h3, h4, h5, h6, h7⟩ := core_done env cfg s hc hm
  refine ⟨s.calls, h1, h2, h3, h4, h5, by omega, ?_⟩
  intro hpos
  have := h7 hpos
  omega

/-- The report of a run on a valid configuration: every counter is the
`int32` value of the number of outcomes of its kind among the `cfg.requests`
attempts. -/
theorem runLoadTest_valid_report (env : Env) (cfg : config) (sched : List Action) (r : report)
    (hv : cfg.valid) (h : runLoadTest env cfg sched = some r) :
    r.totalRequests = wrap32 cfg.requests ∧
    r.errors = wrap32 (countErrs env.get cfg.requests.toNat) ∧
    r.success200 = wrap32 (countStatus env.get StatusOK cfg.requests.toNat) ∧
    (∀ c, mapGet r.statusCounters c = mapVal (countStatus env.get c cfg.requests.toNat)) ∧
    (mapKeys r.statusCounters).Nodup := by
  obtain ⟨calls, h1, h2, h3, h4, h5, -, h7⟩ := runLoadTest_report env cfg sched r h
  have hc := h7 hv.2.2.1
  have hn : cfg.requests.toNat = calls := by omega
  rw [hn, ← hc]
  exact ⟨h1, h2, h3, h4, h5⟩

/-- On a valid configuration with `concurrency <= 2147483647` some schedule
makes `runLoadTest` return. -/
theorem runLoadTest_returns (env : Env) (cfg : config) (hv : cfg.valid)
    (hC' : cfg.concurrency ≤ 2147483647) :
    ∃ sched r, runLoadTest env cfg sched = some r := by
  obtain ⟨rest, r, h⟩ := runLoadTest_completes env cfg (le_of_lt hv.2.1) (le_of_lt hv.2.2.1)
    hC' [] State.init rfl
  exact ⟨[] ++ rest, r, h⟩

/-- A run of `runLoadTest` returns only when `concurrency <= 2147483647`. -/
theorem runLoadTest_concurrency (env : Env) (cfg : config) (sched : List Action) (r : report)
    (h : runLoadTest env cfg sched = some r) : cfg.concurrency ≤ 2147483647 := by
  rw [runLoadTest_eq_some] at h
  obtain ⟨s, hs, hm, rfl⟩ := h
  have hi := exec_inv env cfg sched State.init s (Or.inr (core_init env cfg)) hs
  rcases hi with hi | hi
  · rw [hm] at hi; cases hi.1
  · exact core_done_concurrency env cfg s hi hm

/-! ## Counting outcomes -/

theorem countStatus_const_same (c : Int) (n : Nat) :
    countStatus (fun _ => Outcome.status c) c n = n := by
  induction n with
  | zero => rfl
  | succ n ih => simp [countStatus, ih]

theorem countStatus_const_other (c d : Int) (h : c ≠ d) (n : Nat) :
    countStatus (fun _ => Outcome.status c) d n = 0 := by
  induction n with
  | zero => rfl
  | succ n ih => simp [countStatus, ih, h]

theorem countErrs_const_status (c : Int) (n : Nat) :
    countErrs (fun _ => Outcome.status c) n = 0 := by
  induction n with
  | zero => rfl
  | succ n ih => simp [countErrs, ih]

theorem countErrs_const_err (n : Nat) : countErrs (fun _ => Outcome.err) n = n := by
  induction n with
  | zero => rfl
  | succ n ih => simp [countErrs, ih]

theorem countStatus_const_err (c : Int) (n : Nat) :
    countStatus (fun _ => Outcome.err) c n = 0 := by
  induction n with
  | zero => rfl
  | succ n ih => simp [countStatus, ih]

theorem countErrs_firstErr (n : Nat) : countErrs envFirstErr.get (n + 1) = 1 := by
  induction n with
  | zero => rfl
  | succ n ih =>
    rw [countErrs, ih]
    simp [envFirstErr]

theorem countStatus_firstErr_200 (n : Nat) : countStatus envFirstErr.get 200 (n + 1) = n := by
  induction n with
  | zero => rfl
  | succ n ih =>
    rw [countStatus, ih]
    simp [envFirstErr]

theorem countStatus_firstErr_other (c : Int) (h : c ≠ 200) (n : Nat) :
    countStatus envFirstErr.get c n = 0 := by
  induction n with
  | zero => rfl
  | succ n ih =>
    rw [countStatus, ih]
    have h' : ¬ (200 : Int) = c := fun e => h e.symm
    by_cases hn : n = 0 <;> simp [envFirstErr, hn, h']

theorem countStatus_eq_count (get : Nat → Outcome) (c : Int) (n : Nat) :
    countStatus get c n = ((List.range n).map get).count (Outcome.status c) := by
  induction n with
  | zero => rfl
  | succ n ih =>
    rw [countStatus, ih, List.range_succ, List.map_append, List.count_append]
    by_cases h : get n = Outcome.status c
    · simp [h]
    · simp [h, List.count_cons]

theorem countErrs_eq_count (get : Nat → Outcome) (n : Nat) :
    countErrs get n = ((List.range n).map get).count Outcome.err := by
  induction n with
  | zero => rfl
  | succ n ih =>
    rw [countErrs, ih, List.range_succ, List.map_append, List.count_append]
    by_cases h : get n = Outcome.err
    · simp [h]
    · simp [h, List.count_cons]

/-! ## `parseFlags` -/

/-- C6. The validation of `parseFlags` returns an error, and no configuration,
exactly when the url is empty, or `requests <= 0`, or `concurrency <= 0`; for
every other input it returns a configuration and no error. -/
theorem parseFlags_error_iff (url : String) (requests concurrency timeout : Int) :
    ((∃ e, parseFlags url requests concurrency timeout = .error e) ↔
      (url = "" ∨ requests ≤ 0 ∨ concurrency ≤ 0)) ∧
    ((∃ cfg, parseFlags url requests concurrency timeout = .ok cfg) ↔
      ¬ (url = "" ∨ requests ≤ 0 ∨ concurrency ≤ 0)) := by
  unfold parseFlags
  by_cases h1 : url = ""
  · simp [h1]
  · by_cases h2 : requests ≤ 0
    · simp [h1, h2]
    · by_cases h3 : concurrency ≤ 0
      · simp [h1, h2, h3]
      · simp [h1, h2, h3]

/-- C7. For every input accepted by `parseFlags`, the returned configuration has
`concurrency = min(supplied concurrency, supplied requests)`, so that
`0 < concurrency <= requests`; when the supplied concurrency exceeds `requests`
the effective concurrency is `requests`; url, requests and timeout are returned
unchanged. -/
theorem parseFlags_clamps (url : String) (requests concurrency timeout : Int) (cfg : config)
    (h : parseFlags url requests concurrency timeout = .ok cfg) :
    cfg.concurrency = min concurrency requests ∧
    0 < cfg.concurrency ∧ cfg.concurrency ≤ cfg.requests ∧
    (concurrency > requests → cfg.concurrency = requests) ∧
    cfg.url = url ∧ cfg.requests = requests ∧ cfg.timeout = timeout := by
  unfold parseFlags at h
  split at h
  · simp at h
  · split at h
    · simp at h
    · split at h
      · simp at h
      · simp only [Except.ok.injEq] at h
        subst h
        refine ⟨?_, ?_, ?_, ?_, rfl, rfl, rfl⟩ <;> dsimp only <;> split <;> omega

theorem parseFlags_clamps_witness :
    parseFlags "http://localhost" 5 9 30000000000
        = .ok { url := "http://localhost", requests := 5, concurrency := 5,
                timeout := 30000000000 } ∧
    ((5 : Int) = min 9 5 ∧ (0 : Int) < 5 ∧ (5 : Int) ≤ 5 ∧ ((9 : Int) > 5 → (5 : Int) = 5) ∧
      "http://localhost" = "http://localhost" ∧ (5 : Int) = 5 ∧
      (30000000000 : Int) = 30000000000) :=
  ⟨rfl, parseFlags_clamps "http://localhost" 5 9 30000000000 _ rfl⟩

/-- C8, as claimed, fails: `parseFlags` accepts a negative timeout (the flag
value `-1ns`) and returns it in the configuration. -/
theorem parseFlags_negative_timeout :
    ¬ (∀ (url : String) (requests concurrency timeout : Int) (cfg : config),
        parseFlags url requests concurrency timeout = .ok cfg →
          cfg.url ≠ "" ∧ 0 < cfg.requests ∧ 0 < cfg.concurrency ∧ 0 ≤ cfg.timeout) := by
  intro h
  have := (h "http://localhost" 1 1 (-1) _ rfl).2.2.2
  exact absurd this (by decide)

/-- C8, amended. Every configuration returned by `parseFlags` has a non-empty
url, `requests > 0` and `0 < concurrency <= requests`; its timeout is the
supplied one, unvalidated, so it is non-negative exactly when the supplied
timeout is. -/
theorem parseFlags_valid (url : String) (requests concurrency timeout : Int) (cfg : config)
    (h : parseFlags url requests concurrency timeout = .ok cfg) :
    cfg.valid ∧ cfg.timeout = timeout ∧ (0 ≤ cfg.timeout ↔ 0 ≤ timeout) := by
  unfold parseFlags at h
  split at h
  · simp at h
  · rename_i hu
    split at h
    · simp at h
    · split at h
      · simp at h
      · simp only [Except.ok.injEq] at h
        subst h
        refine ⟨⟨hu, ?_, ?_, ?_⟩, rfl, Iff.rfl⟩ <;> dsimp only <;> (try split) <;> omega

theorem parseFlags_valid_witness :
    parseFlags "http://localhost" 1 1 (-1)
        = .ok { url := "http://localhost", requests := 1, concurrency := 1, timeout := -1 } ∧
    ((config.mk "http://localhost" 1 1 (-1)).valid ∧ (-1 : Int) = -1 ∧
      ((0 : Int) ≤ -1 ↔ (0 : Int) ≤ -1)) :=
  ⟨rfl, parseFlags_valid "http://localhost" 1 1 (-1) _ rfl⟩

/-! ## The report of `runLoadTest` -/

theorem mapVal_getD (n : Nat) : (mapVal n).getD 0 = wrap32 n := by
  unfold mapVal
  by_cases h : n = 0
  · subst h
    rw [if_pos rfl, Option.getD_none, Nat.cast_zero]
    exact wrap32_zero.symm
  · rw [if_neg h, Option.getD_some]

/-- C3. For every configuration and every sequence of request outcomes, the
report returned by `runLoadTest` satisfies
`success200 == statusCounters[200]`, a missing key 200 being read as 0. -/
theorem success200_eq_statusCounters (env : Env) (cfg : config) (sched : List Action)
    (r : report) (h : runLoadTest env cfg sched = some r) :
    r.success200 = (mapGet r.statusCounters 200).getD 0 := by
  obtain ⟨calls, -, -, h3, h4, -, -, -⟩ := runLoadTest_report env cfg sched r h
  have h5 := h4 200
  rw [h5, mapVal_getD, h3]
  rfl

theorem success200_eq_statusCounters_witness :
    runLoadTest env200Then404 cfgPair schedPairB
        = some { duration := 26, totalRequests := 2, success200 := 1,
                 statusCounters := [(404, 1), (200, 1)], errors := 0 } ∧
    (1 : Int) = (mapGet [(404, 1), (200, 1)] 200).getD 0 :=
  ⟨rfl, success200_eq_statusCounters env200Then404 cfgPair schedPairB _ rfl⟩

/-- C9. For every valid configuration and every deterministic stub
collaborator, any two executions of `runLoadTest`, whatever the schedule of the
goroutines and whatever the order in which the fixed outcomes are handed to the
calls (any permutation of the outcome sequence), yield reports with identical
`totalRequests`, `success200`, `errors` and `statusCounters` (same keys, same
values); the duration is not constrained. -/
theorem report_independent_of_order (env1 env2 : Env) (cfg : config)
    (sched1 sched2 : List Action) (r1 r2 : report) (hv : cfg.valid)
    (hperm : ((List.range cfg.requests.toNat).map env1.get).Perm
      ((List.range cfg.requests.toNat).map env2.get))
    (h1 : runLoadTest env1 cfg sched1 = some r1)
    (h2 : runLoadTest env2 cfg sched2 = some r2) :
    r1.totalRequests = r2.totalRequests ∧ r1.success200 = r2.success200 ∧
    r1.errors = r2.errors ∧
    ∀ c, mapGet r1.statusCounters c = mapGet r2.statusCounters c := by
  obtain ⟨a1, a2, a3, a4, -⟩ := runLoadTest_valid_report env1 cfg sched1 r1 hv h1
  obtain ⟨b1, b2, b3, b4, -⟩ := runLoadTest_valid_report env2 cfg sched2 r2 hv h2
  have hs : ∀ c, countStatus env1.get c cfg.requests.toNat
      = countStatus env2.get c cfg.requests.toNat := by
    intro c
    rw [countStatus_eq_count, countStatus_eq_count]
    exact hperm.count_eq _
  have he : countErrs env1.get cfg.requests.toNat = countErrs env2.get cfg.requests.toNat := by
    rw [countErrs_eq_count, countErrs_eq_count]
    exact hperm.count_eq _
  refine ⟨by rw [a1, b1], by rw [a3, b3, hs], by rw [a2, b2, he], ?_⟩
  intro c
  rw [a4, b4, hs]

theorem report_independent_of_order_witness :
    (runLoadTest env200Then404 cfgPair schedPairA
        = some { duration := 26, totalRequests := 2, success200 := 1,
                 statusCounters := [(200, 1), (404, 1)], errors := 0 } ∧
     runLoadTest env404Then200 cfgPair schedPairA
        = some { duration := 26, totalRequests := 2, success200 := 1,
                 statusCounters := [(404, 1), (200, 1)], errors := 0 }) ∧
    ((2 : Int) = 2 ∧ (1 : Int) = 1 ∧ (0 : Int) = 0 ∧
      ∀ c, mapGet [(200, 1), (404, 1)] c = mapGet [(404, 1), (200, 1)] c) :=
  ⟨⟨rfl, rfl⟩,
    report_independent_of_order env200Then404 env404Then200 cfgPair schedPairA schedPairA _ _
      (by decide) (List.Perm.swap (Outcome.status 404) (Outcome.status 200) []) rfl rfl⟩

/-- C10, as claimed, fails at `--requests=2147483648 --concurrency=2147483648`:
the command line is accepted and valid, `wg.Add(2147483648)` makes the `int32`
counter of the wait group negative and the program panics, so the run ends with
no worker started instead of `cfg.concurrency` of them. -/
theorem exactly_concurrency_workers_fails :
    parseFlags "http://localhost" 2147483648 2147483648 30000000000 = .ok cfgBig ∧
    cfgBig.valid ∧
    exec envAll200 cfgBig State.init (mainSteps 2) = some stateBigPanicked ∧
    (∀ a, step envAll200 cfgBig stateBigPanicked a = none) ∧
    stateBigPanicked.workers.length = 0 ∧
    ¬ (∀ (env : Env) (cfg : config) (s : State), cfg.valid → Reachable env cfg s →
        (s.inFlight : Int) ≤ cfg.concurrency ∧
        s.inFlight ≤ s.workers.length ∧
        (s.workers.length : Int) ≤ cfg.concurrency ∧
        (s.main = .make ∨ s.main = .add ∨ (∃ i, s.main = .spawn i) ∨
          (s.workers.length : Int) = cfg.concurrency)) := by
  refine ⟨rfl, by decide, rfl, fun a => rfl, rfl, ?_⟩
  intro hall
  have h := (hall envAll200 cfgBig stateBigPanicked (by decide) ⟨mainSteps 2, rfl⟩).2.2.2
  rcases h with h | h | ⟨i, h⟩ | h
  · cases h
  · cases h
  · cases h
  · exact absurd h (by decide)

/-- C10, amended. During any execution of `runLoadTest` with a valid
configuration, at no point are more than `cfg.concurrency` requests in flight:
a worker is inside at most one `performRequest` call, the pool never holds
more than `cfg.concurrency` workers, and once the loop that starts them is
over it holds exactly `cfg.concurrency` of them, unless the program has
panicked; it does not panic when `cfg.concurrency <= 2147483647`. -/
theorem inFlight_le_concurrency (env : Env) (cfg : config) (s : State)
    (hv : cfg.valid) (h : Reachable env cfg s) :
    (s.inFlight : Int) ≤ cfg.concurrency ∧
    s.inFlight ≤ s.workers.length ∧
    (s.workers.length : Int) ≤ cfg.concurrency ∧
    (s.main = .make ∨ s.main = .add ∨ (∃ i, s.main = .spawn i) ∨ s.main = .panicked ∨
      (s.workers.length : Int) = cfg.concurrency) ∧
    (cfg.concurrency ≤ 2147483647 → s.main ≠ .panicked) := by
  obtain ⟨sched, h⟩ := h
  have hpool := poolSize_spec cfg
  have hpos := hv.2.2.1
  have h1 : s.inFlight ≤ s.workers.length := by
    rw [inFlight_eq_wsum env]; exact wsum_le_length env _ _
  have h5 : cfg.concurrency ≤ 2147483647 → s.main ≠ .panicked :=
    fun hC' => exec_no_panic env cfg sched s (le_of_lt hv.2.1) (le_of_lt hpos) hC' h
  rcases exec_inv env cfg sched State.init s (Or.inr (core_init env cfg)) h with hi | hi
  · exact ⟨by omega, h1, by omega, Or.inr (Or.inr (Or.inr (Or.inl hi.1))), h5⟩
  · obtain ⟨⟨-, -, hlen, hst, -, -, -⟩, -, -⟩ := hi
    have h2 : (s.workers.length : Int) ≤ cfg.concurrency := by
      rw [hlen]
      cases hm : s.main <;> rw [hm] at hst <;> simp only [started, added] at hst ⊢ <;>
        first
          | omega
          | (have hb := hst trivial
             omega)
    refine ⟨by omega, h1, h2, ?_, h5⟩
    rw [hlen]
    cases hm : s.main <;> simp only [started, reduceCtorEq, false_or, true_or, or_true,
      MainPc.spawn.injEq, exists_eq', or_false] <;> omega

theorem inFlight_le_concurrency_witness :
    exec envAll200 cfgPair State.init schedPairInFlight = some statePairInFlight ∧
    statePairInFlight.inFlight = 2 ∧
    ((statePairInFlight.inFlight : Int) ≤ cfgPair.concurrency ∧
      statePairInFlight.inFlight ≤ statePairInFlight.workers.length ∧
      (statePairInFlight.workers.length : Int) ≤ cfgPair.concurrency ∧
      (statePairInFlight.main = .make ∨ statePairInFlight.main = .add ∨
        (∃ i, statePairInFlight.main = .spawn i) ∨ statePairInFlight.main = .panicked ∨
        (statePairInFlight.workers.length : Int) = cfgPair.concurrency) ∧
      (cfgPair.concurrency ≤ 2147483647 → statePairInFlight.main ≠ .panicked)) :=
  ⟨rfl, rfl,
    inFlight_le_concurrency envAll200 cfgPair statePairInFlight (by decide)
      ⟨schedPairInFlight, rfl⟩⟩

/-! ## 2147483648 requests: the `int32` counters wrap around -/

theorem cfgWrap_valid : cfgWrap.valid := by decide

theorem cfgWrap_concurrency : cfgWrap.concurrency ≤ 2147483647 := by decide

theorem cfgWrap_report (env : Env) (sched : List Action) (r : report)
    (h : runLoadTest env cfgWrap sched = some r) :
    r.totalRequests = -2147483648 ∧
    r.errors = wrap32 (countErrs env.get 2147483648) ∧
    r.success200 = wrap32 (countStatus env.get 200 2147483648) ∧
    (∀ c, mapGet r.statusCounters c = mapVal (countStatus env.get c 2147483648)) ∧
    (mapKeys r.statusCounters).Nodup := by
  obtain ⟨h1, h2, h3, h4, h5⟩ := runLoadTest_valid_report env cfgWrap sched r cfgWrap_valid h
  have hn : cfgWrap.requests.toNat = 2147483648 := by decide
  have hw : wrap32 cfgWrap.requests = -2147483648 := by decide
  rw [hn] at h2 h3 h4
  rw [hw] at h1
  exact ⟨h1, h2, h3, h4, h5⟩

/-- C1, at the failing input `--requests=2147483648 --concurrency=1`: the
command line is accepted by `parseFlags`, the configuration is valid, the run
returns, and every run reports `totalRequests = -2147483648`, which is not
`cfg.requests`. -/
theorem totalRequests_wraps (env : Env) :
    parseFlags "http://localhost" 2147483648 1 30000000000 = .ok cfgWrap ∧
    cfgWrap.valid ∧ isGoInt cfgWrap.requests ∧
    (∃ sched r, runLoadTest env cfgWrap sched = some r) ∧
    (∀ sched r, runLoadTest env cfgWrap sched = some r →
      r.totalRequests = -2147483648 ∧ r.totalRequests ≠ cfgWrap.requests) := by
  refine ⟨rfl, cfgWrap_valid, by decide, runLoadTest_returns env cfgWrap cfgWrap_valid cfgWrap_concurrency, ?_⟩
  intro sched r h
  obtain ⟨h1, -⟩ := cfgWrap_report env sched r h
  rw [h1]
  exact ⟨rfl, by decide⟩

/-- C2, at the failing input: 2147483648 requests of which the first fails and
all others answer 200.  Every run reports `errors = 1`,
`statusCounters = {200: 2147483647}` and `totalRequests = -2147483648`, so
`errors + sum(statusCounters)` is `2147483648` and differs from
`totalRequests`. -/
theorem errors_plus_statuses_ne_total :
    (∃ sched r, runLoadTest envFirstErr cfgWrap sched = some r) ∧
    (∀ sched r, runLoadTest envFirstErr cfgWrap sched = some r →
      r.errors = 1 ∧ r.statusCounters = [(200, 2147483647)] ∧
      r.totalRequests = -2147483648 ∧
      r.errors + mapSum r.statusCounters = 2147483648 ∧
      r.errors + mapSum r.statusCounters ≠ r.totalRequests) := by
  refine ⟨runLoadTest_returns envFirstErr cfgWrap cfgWrap_valid
    cfgWrap_concurrency, ?_⟩
  intro sched r h
  obtain ⟨h1, h2, -, h4, h5⟩ := cfgWrap_report envFirstErr sched r h
  have e1 : countErrs envFirstErr.get 2147483648 = 1 := countErrs_firstErr 2147483647
  have e2 : countStatus envFirstErr.get 200 2147483648 = 2147483647 :=
    countStatus_firstErr_200 2147483647
  have herr : r.errors = 1 := by rw [h2, e1]; decide
  have hmap : r.statusCounters = [(200, 2147483647)] := by
    apply map_eq_singleton _ _ _ h5
    · rw [h4, e2]; decide
    · intro c hc
      rw [h4, countStatus_firstErr_other c hc]
      rfl
  rw [herr, hmap, h1]
  exact ⟨rfl, rfl, rfl, by decide, by decide⟩

/-- C4, at the failing input: 2147483648 requests that all answer 200.  The
number of attempts that returned 200 is 2147483648, and every run reports
`statusCounters[200] = -2147483648`. -/
theorem statusCounters_wraps :
    countStatus envAll200.get 200 cfgWrap.requests.toNat = 2147483648 ∧
    (∃ sched r, runLoadTest envAll200 cfgWrap sched = some r) ∧
    (∀ sched r, runLoadTest envAll200 cfgWrap sched = some r →
      mapGet r.statusCounters 200 = some (-2147483648)) := by
  refine ⟨countStatus_const_same 200 _, runLoadTest_returns envAll200 cfgWrap cfgWrap_valid
    cfgWrap_concurrency, ?_⟩
  intro sched r h
  obtain ⟨-, -, -, h4, -⟩ := cfgWrap_report envAll200 sched r h
  have e : countStatus envAll200.get 200 2147483648 = 2147483648 := countStatus_const_same 200 _
  rw [h4, e]
  decide

/-- C5, at the failing input: 2147483648 requests that all fail with a
transport error.  Every run reports `errors = -2147483648` and
`totalRequests = -2147483648`, neither of which is `cfg.requests`; `success200`
is 0 and the map is empty, as claimed. -/
theorem errors_wraps :
    (∃ sched r, runLoadTest envAllErr cfgWrap sched = some r) ∧
    (∀ sched r, runLoadTest envAllErr cfgWrap sched = some r →
      r.errors = -2147483648 ∧ r.errors ≠ cfgWrap.requests ∧
      r.totalRequests = -2147483648 ∧ r.totalRequests ≠ cfgWrap.requests ∧
      r.success200 = 0 ∧ r.statusCounters = []) := by
  refine ⟨runLoadTest_returns envAllErr cfgWrap cfgWrap_valid
    cfgWrap_concurrency, ?_⟩
  intro sched r h
  obtain ⟨h1, h2, h3, h4, -⟩ := cfgWrap_report envAllErr sched r h
  have e1 : countErrs envAllErr.get 2147483648 = 2147483648 := countErrs_const_err _
  have e2 : ∀ c, countStatus envAllErr.get c 2147483648 = 0 := fun c => countStatus_const_err c _
  have herr : r.errors = -2147483648 := by rw [h2, e1]; decide
  have hs : r.success200 = 0 := by rw [h3, e2]; decide
  have hmap : r.statusCounters = [] := by
    apply map_eq_nil
    intro c
    rw [h4, e2]
    rfl
  rw [herr, hs, hmap, h1]
  exact ⟨rfl, by decide, rfl, by decide, rfl, rfl⟩

/-! ## Fewer than 2147483648 requests: the report is exact -/

theorem countErrs_le (get : Nat → Outcome) (n : Nat) : countErrs get n ≤ n := by
  induction n with
  | zero => exact Nat.le_refl _
  | succ n ih =>
    rw [countErrs]
    split <;> omega

theorem countStatus_le (get : Nat → Outcome) (c : Int) (n : Nat) : countStatus get c n ≤ n := by
  induction n with
  | zero => exact Nat.le_refl _
  | succ n ih =>
    rw [countStatus]
    split <;> omega

theorem countStatus_pos (get : Nat → Outcome) (c : Int) (n k : Nat) (hk : k < n)
    (h : get k = Outcome.status c) : 0 < countStatus get c n := by
  induction n with
  | zero => omega
  | succ n ih =>
    rw [countStatus]
    by_cases hkn : k = n
    · subst hkn
      rw [if_pos h]
      omega
    · have := ih (by omega)
      omega

theorem sum_indicator_err (l : List Int) :
    (l.map (fun c => if Outcome.err = Outcome.status c then 1 else 0)).sum = 0 := by
  induction l with
  | nil => rfl
  | cons c t ih => simp [ih]

theorem sum_indicator_status (l : List Int) (c0 : Int) (hnd : l.Nodup) (hmem : c0 ∈ l) :
    (l.map (fun c => if Outcome.status c0 = Outcome.status c then 1 else 0)).sum = 1 := by
  induction l with
  | nil => simp at hmem
  | cons c t ih =>
    rw [List.nodup_cons] at hnd
    rw [List.map_cons, List.sum_cons]
    by_cases hc : c0 = c
    · subst hc
      have hz : (t.map (fun c => if Outcome.status c0 = Outcome.status c then 1 else 0)).sum
          = 0 := by
        apply List.sum_eq_zero
        intro x hx
        rw [List.mem_map] at hx
        obtain ⟨d, hd, rfl⟩ := hx
        have hne : ¬ c0 = d := fun e => hnd.1 (e ▸ hd)
        simp [hne]
      rw [if_pos rfl, hz]
    · have hm : c0 ∈ t := by
        rcases List.mem_cons.mp hmem with h | h
        · exact absurd h hc
        · exact h
      rw [if_neg (fun e => hc (Outcome.status.inj e)), ih hnd.2 hm]

/-- Over a duplicate-free list of codes that contains every code returned, the
counts per code and the count of errors add up to the number of calls. -/
theorem sum_counts (get : Nat → Outcome) (l : List Int) (hnd : l.Nodup) (n : Nat)
    (hall : ∀ k, k < n → ∀ c, get k = Outcome.status c → c ∈ l) :
    (l.map (fun c => countStatus get c n)).sum + countErrs get n = n := by
  induction n with
  | zero => simp [countStatus, countErrs]
  | succ n ih =>
    have ih' := ih (fun k hk c hc => hall k (by omega) c hc)
    have hsplit : (l.map (fun c => countStatus get c (n + 1))).sum
        = (l.map (fun c => countStatus get c n)).sum
          + (l.map (fun c => if get n = Outcome.status c then 1 else 0)).sum := by
      simp only [countStatus]
      exact List.sum_map_add
    rw [hsplit, countErrs]
    cases hg : get n with
    | err =>
      rw [sum_indicator_err]
      simp only [if_true]
      omega
    | status c0 =>
      rw [sum_indicator_status l c0 hnd (hall n (by omega) c0 hg)]
      simp only [reduceCtorEq, if_false]
      omega

theorem mapSum_eq_sum_keys (m : List (Int × Int)) (hnd : (mapKeys m).Nodup) :
    mapSum m = ((mapKeys m).map (fun k => (mapGet m k).getD 0)).sum := by
  induction m with
  | nil => rfl
  | cons e t ih =>
    obtain ⟨k, v⟩ := e
    simp only [mapKeys, List.map_cons, List.nodup_cons] at hnd
    have ht := ih hnd.2
    simp only [mapSum, mapKeys, List.map_cons, List.sum_cons, mapGet, if_true,
      Option.getD_some] at ht ⊢
    rw [ht]
    congr 1
    congr 1
    apply List.map_congr_left
    intro k' hk'
    have hne : ¬ k = k' := fun e => hnd.1 (e ▸ hk')
    rw [if_neg hne]

/-- On a valid configuration of at most 2147483647 requests the report is
exact: `totalRequests` is `cfg.requests`, `errors` the number of failed
attempts, `success200` the number of attempts answered 200, `statusCounters`
maps every returned code to the number of attempts that returned it and has no
other key, and `errors + sum(statusCounters) = totalRequests`. -/
theorem runLoadTest_exact (env : Env) (cfg : config) (sched : List Action) (r : report)
    (hv : cfg.valid) (hsmall : cfg.requests ≤ 2147483647)
    (h : runLoadTest env cfg sched = some r) :
    r.totalRequests = cfg.requests ∧
    r.errors = countErrs env.get cfg.requests.toNat ∧
    r.success200 = countStatus env.get 200 cfg.requests.toNat ∧
    (∀ c, mapGet r.statusCounters c =
      if countStatus env.get c cfg.requests.toNat = 0 then none
      else some (countStatus env.get c cfg.requests.toNat : Int)) ∧
    r.errors + mapSum r.statusCounters = r.totalRequests := by
  obtain ⟨h1, h2, h3, h4, h5⟩ := runLoadTest_valid_report env cfg sched r hv h
  have hpos := hv.2.1
  have hw : ∀ k : Nat, k ≤ cfg.requests.toNat → wrap32 (k : Int) = k :=
    fun k hk => wrap32_of_int32 _ (by omega) (by omega)
  have e1 : r.totalRequests = cfg.requests := by
    rw [h1]; exact wrap32_of_int32 _ (by omega) (by omega)
  have e2 : r.errors = countErrs env.get cfg.requests.toNat := by
    rw [h2]; exact hw _ (countErrs_le _ _)
  have e3 : r.success200 = countStatus env.get 200 cfg.requests.toNat := by
    rw [h3]; exact hw _ (countStatus_le _ _ _)
  have e4 : ∀ c, mapGet r.statusCounters c =
      if countStatus env.get c cfg.requests.toNat = 0 then none
      else some (countStatus env.get c cfg.requests.toNat : Int) := by
    intro c
    rw [h4, mapVal, hw _ (countStatus_le _ _ _)]
  refine ⟨e1, e2, e3, e4, ?_⟩
  have hkeys : ∀ k, k < cfg.requests.toNat → ∀ c, env.get k = Outcome.status c →
      c ∈ mapKeys r.statusCounters := by
    intro k hk c hc
    by_contra hmem
    have hnone := (mapGet_eq_none_iff r.statusCounters c).mpr hmem
    have hp := countStatus_pos env.get c _ k hk hc
    rw [e4 c, if_neg (by omega)] at hnone
    cases hnone
  have hs := sum_counts env.get (mapKeys r.statusCounters) h5 cfg.requests.toNat hkeys
  have hm : mapSum r.statusCounters
      = (((mapKeys r.statusCounters).map
          (fun c => countStatus env.get c cfg.requests.toNat)).sum : Nat) := by
    rw [mapSum_eq_sum_keys _ h5, Nat.cast_list_sum, List.map_map]
    congr 1
    apply List.map_congr_left
    intro c _
    rw [e4 c]
    by_cases hz : countStatus env.get c cfg.requests.toNat = 0
    · simp [hz]
    · simp [hz]
  rw [e1, e2, hm]
  omega

/-! ## The scenarios of the specification -/

/-- Target always answers 200, 10 requests, 3 workers: every run reports
`totalRequests = 10`, `success200 = 10`, `statusCounters = {200: 10}` and
`errors = 0`; the schedule `schedTen` is one such run. -/
theorem scenario_all_200 :
    runLoadTest envAll200 cfgTen schedTen
        = some { duration := 100, totalRequests := 10, success200 := 10,
                 statusCounters := [(200, 10)], errors := 0 } ∧
    (∀ sched r, runLoadTest envAll200 cfgTen sched = some r →
      r.totalRequests = 10 ∧ r.success200 = 10 ∧ r.statusCounters = [(200, 10)] ∧
      r.errors = 0) := by
  refine ⟨rfl, ?_⟩
  intro sched r h
  obtain ⟨h1, h2, h3, h4, -⟩ := runLoadTest_exact envAll200 cfgTen sched r (by decide)
    (by decide) h
  obtain ⟨-, -, -, -, h5⟩ := runLoadTest_valid_report envAll200 cfgTen sched r (by decide) h
  have hn : cfgTen.requests.toNat = 10 := by decide
  rw [hn] at h2 h3 h4
  have e1 : countStatus envAll200.get 200 10 = 10 := countStatus_const_same 200 10
  have e2 : countErrs envAll200.get 10 = 0 := countErrs_const_status 200 10
  refine ⟨h1, by rw [h3, e1]; rfl, ?_, by rw [h2, e2]; rfl⟩
  apply map_eq_singleton _ _ _ h5
  · rw [h4, e1]; rfl
  · intro c hc
    have e3 : countStatus envAll200.get c 10 = 0 :=
      countStatus_const_other 200 c (fun e => hc e.symm) 10
    rw [h4, e3]; rfl

/-- Target never reachable, 5 requests, 2 workers: every run reports
`totalRequests = 5`, `success200 = 0`, an empty `statusCounters` and
`errors = 5`; the schedule `schedFive` is one such run. -/
theorem scenario_unreachable :
    runLoadTest envAllErr cfgFive schedFive
        = some { duration := 38, totalRequests := 5, success200 := 0,
                 statusCounters := [], errors := 5 } ∧
    (∀ sched r, runLoadTest envAllErr cfgFive sched = some r →
      r.totalRequests = 5 ∧ r.success200 = 0 ∧ r.statusCounters = [] ∧ r.errors = 5) := by
  refine ⟨rfl, ?_⟩
  intro sched r h
  obtain ⟨h1, h2, h3, h4, -⟩ := runLoadTest_exact envAllErr cfgFive sched r (by decide)
    (by decide) h
  have hn : cfgFive.requests.toNat = 5 := by decide
  rw [hn] at h2 h3 h4
  have e1 : ∀ c, countStatus envAllErr.get c 5 = 0 := fun c => countStatus_const_err c 5
  have e2 : countErrs envAllErr.get 5 = 5 := countErrs_const_err 5
  refine ⟨h1, by rw [h3, e1]; rfl, ?_, by rw [h2, e2]; rfl⟩
  apply map_eq_nil
  intro c
  rw [h4, e1]; rfl

/-- Target answers 200, 500, 200, 500 by call order, 4 requests, 1 worker: every
run reports 2 under key 200, 2 under key 500, no other key and `errors = 0`;
the sequential schedule gives `statusCounters = {200: 2, 500: 2}`. -/
theorem scenario_alternate :
    runLoadTest envAlternate cfgFour schedFour
        = some { duration := 42, totalRequests := 4, success200 := 2,
                 statusCounters := [(200, 2), (500, 2)], errors := 0 } ∧
    (∀ sched r, runLoadTest envAlternate cfgFour sched = some r →
      mapGet r.statusCounters 200 = some 2 ∧ mapGet r.statusCounters 500 = some 2 ∧
      (∀ c, c ≠ 200 → c ≠ 500 → mapGet r.statusCounters c = none) ∧ r.errors = 0) := by
  refine ⟨rfl, ?_⟩
  intro sched r h
  obtain ⟨-, h2, -, h4, -⟩ := runLoadTest_exact envAlternate cfgFour sched r (by decide)
    (by decide) h
  have hn : cfgFour.requests.toNat = 4 := by decide
  rw [hn] at h2 h4
  refine ⟨by rw [h4]; rfl, by rw [h4]; rfl, ?_, by rw [h2]; rfl⟩
  intro c h200 h500
  have e : countStatus envAlternate.get c 4 = 0 := by
    have a : ¬ (200 : Int) = c := fun e => h200 e.symm
    have b : ¬ (500 : Int) = c := fun e => h500 e.symm
    simp [countStatus, envAlternate, a, b]
  rw [h4, e]; rfl

/-- One request, one worker: the run is sequential and returns a well-formed
report. -/
theorem scenario_single :
    runLoadTest envAll200 cfgOne schedOne
        = some { duration := 15, totalRequests := 1, success200 := 1,
                 statusCounters := [(200, 1)], errors := 0 } := rfl

end StressTest
